import Mathlib

/-!
# compile-bpf: from a syscall allowlist to a seccomp filter

A shallow embedding of `docker/seccomp/compile-bpf.c`.  The program reads a text
file line by line, resolves each line as an x86_64 syscall name and adds an
allow rule to a kill-by-default seccomp filter, which it finally exports.

The C library and libseccomp are outside the repository.  Their behaviour is a
parameter (`Env`), and every call the program makes is recorded in a trace of
`Event`s, so that statements such as "the output file is never opened" can be
read off the run.

* Text is a list of characters; a name handed to the library is a C string and
  ends at the first NUL of its buffer (`cstr`).
* The input stream is the list of lines `getline` delivers (`split_lines`); a
  read error is an entry of the environment.
* `errno` is threaded through the read loop, which tests it without ever
  clearing it.
* The filter is a default action and the list of the distinct rules added so
  far.
-/

namespace CompileBpf

/-! ## Constants of the C environment -/

/-- Status passed to `exit` on every fatal path (`EXIT_FAILURE` of stdlib.h). -/
def EXIT_FAILURE : Int := 1

/-- Status of a run that reaches the closing brace of `main`. -/
def EXIT_SUCCESS : Int := 0

/-- Sentinel returned by the resolver for a name it does not know
(`__NR_SCMP_ERROR` of seccomp.h). -/
def __NR_SCMP_ERROR : Int := -1

/-- The terminator of a C string. -/
def NUL : Char := '\x00'

/-- The line terminator. -/
def NL : Char := '\n'

/-- The comment marker. -/
def HASH : Char := '#'

/-! ## The filter under construction -/

/-- Actions of a seccomp filter that the program uses. -/
inductive scmp_action where
  | SCMP_ACT_KILL
  | SCMP_ACT_ALLOW
  deriving DecidableEq, Repr

open scmp_action

/-- One rule of the filter: the syscall number it matches, the action it takes
and the number of argument comparisons attached to it. -/
structure scmp_rule where
  action : scmp_action
  syscall : Int
  arg_cnt : Nat
  deriving DecidableEq, Repr

/-- Modelled from the spec: libseccomp's filter context is not part of the
repository.  Following the data model of the spec, a filter program is a default
action together with the ordered collection of its rules. -/
structure scmp_filter_ctx where
  def_action : scmp_action
  rules : List scmp_rule
  deriving DecidableEq, Repr

/-- Modelled from the spec: `seccomp_init(def_action)` creates a filter with the
given default action and no rule ("initialize once with default action").  The
call is taken to succeed; the program does not test its result. -/
def seccomp_init (def_action : scmp_action) : scmp_filter_ctx :=
  { def_action := def_action, rules := [] }

/-- Modelled from the spec: the filter after a successful
`seccomp_rule_add(ctx, action, syscall, arg_cnt)`.  A rule the filter does not
hold yet is appended ("for every successfully resolved syscall identifier,
append an allow rule"); a rule it already holds leaves the filter as it is
("duplicate rules are harmless (last write is redundant, not conflicting)"). -/
def rule_added (ctx : scmp_filter_ctx) (action : scmp_action) (syscall : Int)
    (arg_cnt : Nat) : scmp_filter_ctx :=
  if ({ action := action, syscall := syscall, arg_cnt := arg_cnt } : scmp_rule) ∈ ctx.rules then ctx
  else { ctx with rules := ctx.rules ++ [{ action := action, syscall := syscall, arg_cnt := arg_cnt }] }

/-- Modelled from the spec: the action the filter takes on syscall number `n`:
that of the first rule matching `n`, and the default action when no rule does. -/
def filter_action (ctx : scmp_filter_ctx) (n : Int) : scmp_action :=
  match ctx.rules.find? (fun r => r.syscall == n) with
  | some r => r.action
  | none => ctx.def_action

/-- Number of rules of the filter that allow syscall number `n`. -/
def allow_rule_count (ctx : scmp_filter_ctx) (n : Int) : Nat :=
  (ctx.rules.filter (fun r => r.syscall == n && r.action == SCMP_ACT_ALLOW)).length

/-! ## The environment -/

/-- Behaviour of the world outside `main`: the syscall table of libseccomp, the
outcome of the fallible library calls, and the value of `errno`. -/
structure Env where
  /-- Table behind `seccomp_syscall_resolve_name_arch(SCMP_ARCH_X86_64, name)`,
  as a function of the C string `name`; `__NR_SCMP_ERROR` for an unknown name. -/
  resolve_name : List Char → Int
  /-- Return value of `seccomp_rule_add(ctx, SCMP_ACT_ALLOW, syscall, 0)`. -/
  rule_add_rc : scmp_filter_ctx → Int → Int
  /-- Value of `errno` when the read loop is entered, as left by the calls made
  before it (`seccomp_init`, `fopen`); the program never assigns `errno`.  The
  calls made inside the loop are taken to leave `errno` as it is, except for a
  failing `getline`. -/
  errno_entry : Int
  /-- A failing read: the index of the `getline` call that fails (counting from
  zero) and the value it leaves in `errno`, which is not zero. -/
  read_error : Option (Nat × { e : Int // e ≠ 0 })
  /-- Return value of `fclose(txt)`. -/
  fclose_txt_rc : Int
  /-- Whether `fopen(path, "w")` succeeds. -/
  fopen_w_ok : String → Bool
  /-- Return value of `seccomp_export_pfc`. -/
  export_pfc_rc : scmp_filter_ctx → Int
  /-- Return value of `seccomp_export_bpf`. -/
  export_bpf_rc : scmp_filter_ctx → Int
  /-- Return value of `fclose(bpf)`. -/
  fclose_bpf_rc : Int

/-- Calls with an effect outside the program, in the order they are made. -/
inductive Event where
  /-- The call `fprintf(stderr, ...)`, with the text written. -/
  | fprintf_stderr (text : List Char)
  /-- The call `perror(msg)`. -/
  | perror (msg : String)
  /-- The call `fopen(path, mode)`. -/
  | fopen (path : String) (mode : String)
  /-- The call `fclose` on the input (`"txt"`) or the output (`"bpf"`). -/
  | fclose (file : String)
  /-- The call `seccomp_syscall_resolve_name_arch(SCMP_ARCH_X86_64, name)`. -/
  | resolve (name : List Char)
  /-- The call `seccomp_rule_add(ctx, action, syscall, arg_cnt)` and its result. -/
  | rule_add (action : scmp_action) (syscall : Int) (arg_cnt : Nat) (rc : Int)
  /-- The call `seccomp_export_pfc(ctx, fileno(stdout))`. -/
  | export_pfc (ctx : scmp_filter_ctx)
  /-- The call `seccomp_export_bpf(ctx, fileno(bpf))` on the output path. -/
  | export_bpf (ctx : scmp_filter_ctx) (path : String)
  /-- The call `seccomp_release(ctx)`. -/
  | release
  deriving DecidableEq, Repr

/-! ## Text handling -/

/-- The lines successive `getline` calls deliver for a file of the given
content (see `split_lines_eq_getline`): each line runs up to and including the
next newline, and the last one ends with the file when the file does not end in
a newline. -/
def split_lines : List Char → List (List Char)
  | [] => []
  | c :: cs =>
    if c = NL then [c] :: split_lines cs
    else
      match split_lines cs with
      | [] => [[c]]
      | l :: ls => (c :: l) :: ls

/-- The call `getline(&line_buf, &line_buf_len, txt)` on a stream with the given
content still to be read: none at the end of the file (the call returns -1),
otherwise the line read, up to and including the first newline or up to the end
of the file, and the content left in the stream. -/
def getline : List Char → Option (List Char × List Char)
  | [] => none
  | c :: cs =>
    if c = NL then some ([c], cs)
    else
      match getline cs with
      | none => some ([c], [])
      | some (line, rest) => some (c :: line, rest)

/-- The C string stored in a buffer: its characters before the first NUL. -/
def cstr (buf : List Char) : List Char :=
  buf.takeWhile (fun c => c != NUL)

/-- The buffer `getline` hands back for a line: the line and a terminating NUL. -/
def getline_buf (line : List Char) : List Char :=
  line ++ [NUL]

/-- Lines 45-48: a newline in the last position of the line is overwritten
with NUL. -/
def terminate_name (line_buf : List Char) (line_len : Nat) : List Char :=
  if line_buf.get? (line_len - 1) = some NL then line_buf.set (line_len - 1) NUL
  else line_buf

/-- The call `seccomp_syscall_resolve_name_arch(SCMP_ARCH_X86_64, line_buf)`:
the library reads the C string in the buffer and looks it up. -/
def seccomp_syscall_resolve_name_arch (env : Env) (line_buf : List Char) : Int :=
  env.resolve_name (cstr line_buf)

/-- Text of `"Could not resolve syscall '%s'; skipping\n"` for the C string
`name`. -/
def msg_unresolved (name : List Char) : List Char :=
  "Could not resolve syscall '".toList ++ name ++ "'; skipping\n".toList

/-- Text of `"Error adding rule to allow '%s'\n"` for the C string `name`. -/
def msg_add_error (name : List Char) : List Char :=
  "Error adding rule to allow '".toList ++ name ++ "'\n".toList

/-- Text of the usage message for the given program name. -/
def msg_usage (argv0 : String) : List Char :=
  "Usage: ".toList ++ argv0.toList ++ " input-file.txt output-file.bpf\n".toList

/-! ## The program -/

/-- Outcome of a run: the calls made, the filter as it stands at the end (none
when the run ends before `seccomp_init`), and the exit status. -/
structure Run where
  trace : List Event
  filter_ctx : Option scmp_filter_ctx
  status : Int
  deriving DecidableEq, Repr

/-- The run `r` preceded by the calls `evs`. -/
def Run.after (evs : List Event) (r : Run) : Run :=
  { r with trace := evs ++ r.trace }

/-- How one iteration of the read loop ends: with the next iteration, on the
filter as it now stands, or with a call of `exit`. -/
inductive Step where
  | next (ctx : scmp_filter_ctx)
  | exit (ctx : scmp_filter_ctx) (status : Int)
  deriving DecidableEq, Repr

/-- Lines 38-58: the body of the read loop for a line that `getline` delivered.
Returns the calls made and how the iteration ends. -/
def loop_body (env : Env) (ctx : scmp_filter_ctx) (line : List Char) : List Event × Step :=
  let line_len := line.length
  let line_buf := getline_buf line
  if line_len = 0 then ([], Step.next ctx)
  else if line_buf.get? 0 = some HASH then ([], Step.next ctx)
  else
    let line_buf := terminate_name line_buf line_len
    let syscall := seccomp_syscall_resolve_name_arch env line_buf
    if syscall = __NR_SCMP_ERROR then
      ([Event.resolve (cstr line_buf), Event.fprintf_stderr (msg_unresolved (cstr line_buf))],
        Step.next ctx)
    else
      let rc := env.rule_add_rc ctx syscall
      if rc ≠ 0 then
        ([Event.resolve (cstr line_buf), Event.rule_add SCMP_ACT_ALLOW syscall 0 rc,
          Event.fprintf_stderr (msg_add_error (cstr line_buf))],
          Step.exit ctx EXIT_FAILURE)
      else
        ([Event.resolve (cstr line_buf), Event.rule_add SCMP_ACT_ALLOW syscall 0 rc],
          Step.next (rule_added ctx SCMP_ACT_ALLOW syscall 0))

/-- Lines 60-88: what follows the read loop. -/
def after_loop (env : Env) (argv : List String) (ctx : scmp_filter_ctx) : Run :=
  let out := argv.getD 2 ""
  if env.fclose_txt_rc ≠ 0 then
    ⟨[Event.fclose "txt", Event.perror "Failed to close input file"], some ctx, EXIT_FAILURE⟩
  else if env.fopen_w_ok out = false then
    ⟨[Event.fclose "txt", Event.fopen out "w", Event.perror "Failed to open output file"],
      some ctx, EXIT_FAILURE⟩
  else if env.export_pfc_rc ctx ≠ 0 then
    ⟨[Event.fclose "txt", Event.fopen out "w", Event.export_pfc ctx,
      Event.perror "Could not output PFC (debug info)"], some ctx, EXIT_FAILURE⟩
  else if env.export_bpf_rc ctx ≠ 0 then
    ⟨[Event.fclose "txt", Event.fopen out "w", Event.export_pfc ctx, Event.export_bpf ctx out,
      Event.perror "Failed to export BPF filter"], some ctx, EXIT_FAILURE⟩
  else if env.fclose_bpf_rc ≠ 0 then
    ⟨[Event.fclose "txt", Event.fopen out "w", Event.export_pfc ctx, Event.export_bpf ctx out,
      Event.fclose "bpf", Event.perror "Failed to close output file"], some ctx, EXIT_FAILURE⟩
  else
    ⟨[Event.fclose "txt", Event.fopen out "w", Event.export_pfc ctx, Event.export_bpf ctx out,
      Event.fclose "bpf", Event.release], some ctx, EXIT_SUCCESS⟩

/-- Value of `errno` after `getline` call number `k` returned -1 when `errno`
was `errno` before: a failing read stores its error, the end of the file leaves
`errno` as it was. -/
def errno_after_getline (env : Env) (k : Nat) (errno : Int) : Int :=
  match env.read_error with
  | some (j, e) => if j = k then e.val else errno
  | none => errno

/-- Whether `getline` call number `k` fails with a read error. -/
def read_fails (env : Env) (k : Nat) : Bool :=
  match env.read_error with
  | some (j, _) => j == k
  | none => false

/-- Lines 30-36: `getline` returned -1 at call number `k`. -/
def getline_failed (env : Env) (argv : List String) (k : Nat) (errno : Int)
    (ctx : scmp_filter_ctx) : Run :=
  if errno_after_getline env k errno ≠ 0 then
    ⟨[Event.perror "Failed to read line from input file"], some ctx, EXIT_FAILURE⟩
  else
    after_loop env argv ctx

/-- Lines 28-59: the read loop, on the lines still to be delivered; `k` counts
the `getline` calls made so far. -/
def read_loop (env : Env) (argv : List String) :
    List (List Char) → Nat → Int → scmp_filter_ctx → Run
  | [], k, errno, ctx => getline_failed env argv k errno ctx
  | line :: rest, k, errno, ctx =>
    if read_fails env k then getline_failed env argv k errno ctx
    else
      match loop_body env ctx line with
      | (evs, Step.next ctx1) => (read_loop env argv rest (k + 1) errno ctx1).after evs
      | (evs, Step.exit ctx1 status) => ⟨evs, some ctx1, status⟩

/-- The program.  `fs path` is the content `fopen(path, "r")` gives access to,
`none` when that call fails; `argv` includes the program name, so that `argc`
is its length. -/
def main (env : Env) (fs : String → Option (List Char)) (argv : List String) : Run :=
  if argv.length ≠ 3 then
    ⟨[Event.fprintf_stderr (msg_usage (argv.getD 0 ""))], none, EXIT_FAILURE⟩
  else
    let filter_ctx := seccomp_init SCMP_ACT_KILL
    let inp := argv.getD 1 ""
    match fs inp with
    | none =>
      ⟨[Event.fopen inp "r", Event.perror "Failed to open input file"], some filter_ctx,
        EXIT_FAILURE⟩
    | some content =>
      (read_loop env argv (split_lines content) 0 env.errno_entry filter_ctx).after
        [Event.fopen inp "r"]

/-! ## A sample environment -/

/-- A few rows of the x86_64 syscall table. -/
def sample_table : List (String × Int) :=
  [("read", 0), ("write", 1), ("open", 2), ("close", 3), ("exit", 60)]

/-- Lookup of a name in `sample_table`. -/
def sample_resolve (name : List Char) : Int :=
  match sample_table.find? (fun p => p.1.toList == name) with
  | some p => p.2
  | none => __NR_SCMP_ERROR

/-- An environment in which every library call succeeds and `errno` is clear. -/
def sample_env : Env :=
  { resolve_name := sample_resolve
    rule_add_rc := fun _ _ => 0
    errno_entry := 0
    read_error := none
    fclose_txt_rc := 0
    fopen_w_ok := fun _ => true
    export_pfc_rc := fun _ => 0
    export_bpf_rc := fun _ => 0
    fclose_bpf_rc := 0 }

/-- The sample environment with `errno` left at 22 (`EINVAL`) by a call made
before the read loop. -/
def stale_errno_env : Env :=
  { sample_env with errno_entry := 22 }

/-- The sample environment with a libseccomp that cannot add the rule for
syscall 1 and returns -12 (`-ENOMEM`) for it. -/
def failing_add_env : Env :=
  { sample_env with rule_add_rc := fun _ syscall => if syscall = 1 then -12 else 0 }

/-- The sample environment with a read error: the second `getline` call fails
and leaves 5 (`EIO`) in `errno`. -/
def read_error_env : Env :=
  { sample_env with read_error := some (1, ⟨5, by decide⟩) }

/-- A file system holding one file, `policy.txt`, of the given content. -/
def one_file (content : String) : String → Option (List Char) :=
  fun path => if path = "policy.txt" then some content.toList else none

/-- The command line `compile-bpf policy.txt out.bpf`. -/
def sample_argv : List String := ["compile-bpf", "policy.txt", "out.bpf"]

/-! ## Notions used to state the properties -/

/-- The line minus one trailing newline, in the words of the spec. -/
def strip_newline (line : List Char) : List Char :=
  if line.getLast? = some NL then line.dropLast else line

/-- Whether the loop body skips the line before the resolver is called. -/
def is_skipped (line : List Char) : Bool :=
  line.length == 0 || (getline_buf line).get? 0 == some HASH

/-- The C string the loop body hands to the resolver for a line. -/
def name_of_line (line : List Char) : List Char :=
  cstr (terminate_name (getline_buf line) line.length)

/-- The syscall number a line contributes: none for a skipped line and for a
name the resolver does not know. -/
def line_syscall (env : Env) (line : List Char) : Option Int :=
  if is_skipped line then none
  else if env.resolve_name (name_of_line line) = __NR_SCMP_ERROR then none
  else some (env.resolve_name (name_of_line line))

/-- The rule the program adds for a resolved syscall number. -/
def allow_rule (syscall : Int) : scmp_rule :=
  { action := SCMP_ACT_ALLOW, syscall := syscall, arg_cnt := 0 }

/-- The rules a sequence of lines contributes, in order. -/
def added_rules (env : Env) (lines : List (List Char)) : List scmp_rule :=
  (lines.filterMap (line_syscall env)).map allow_rule

/-- Whether the event is one of the two exports. -/
def Event.is_export : Event → Bool
  | Event.export_pfc _ => true
  | Event.export_bpf _ _ => true
  | _ => false

/-- Whether the event opens a file for writing. -/
def Event.opens_for_writing : Event → Bool
  | Event.fopen _ mode => mode == "w"
  | _ => false

/-- Whether the event opens a file. -/
def Event.is_fopen : Event → Bool
  | Event.fopen _ _ => true
  | _ => false

/-- Whether the event is a call of the resolver. -/
def Event.is_resolve : Event → Bool
  | Event.resolve _ => true
  | _ => false

/-- Whether the event writes to the diagnostic stream. -/
def Event.is_diagnostic : Event → Bool
  | Event.fprintf_stderr _ => true
  | Event.perror _ => true
  | _ => false

/-- Whether the event is one the read loop makes without ending the run: a call
of the resolver, a line on the diagnostic stream, a rule added with success. -/
def Event.loop_quiet : Event → Bool
  | Event.resolve _ => true
  | Event.fprintf_stderr _ => true
  | Event.rule_add _ _ _ rc => rc == 0
  | _ => false

/-- The filter `ctx` after the given rules have been added one after the other. -/
def with_rules (ctx : scmp_filter_ctx) (rules : List scmp_rule) : scmp_filter_ctx :=
  rules.foldl (fun c r => rule_added c r.action r.syscall r.arg_cnt) ctx

/-- Whether the event is a call of `seccomp_rule_add`. -/
def Event.is_rule_add : Event → Bool
  | Event.rule_add _ _ _ _ => true
  | _ => false

/-- The filter `ctx` is handed to the exporter in the run `r`: one of the two
export calls is made on it. -/
def handed_to_exporter (r : Run) (ctx : scmp_filter_ctx) : Prop :=
  Event.export_pfc ctx ∈ r.trace ∨ ∃ path, Event.export_bpf ctx path ∈ r.trace

/-- In the words of the spec: the line is neither skipped as blank (zero
length) nor a comment, and the resolver maps its name, the line minus one
trailing newline, to the syscall number `n`. -/
def line_resolves_to (env : Env) (line : List Char) (n : Int) : Prop :=
  line ≠ [] ∧ line.head? ≠ some HASH ∧
    seccomp_syscall_resolve_name_arch env (strip_newline line) = n

instance (env : Env) (line : List Char) (n : Int) : Decidable (line_resolves_to env line n) := by
  unfold line_resolves_to
  infer_instance

/-- What the lines cut out of a file look like: none is empty, a newline can
only be the last character of a line, and only the last line may lack it. -/
def well_split : List (List Char) → Prop
  | [] => True
  | l :: ls =>
    l ≠ [] ∧ NL ∉ l.dropLast ∧ (ls ≠ [] → l.getLast? = some NL) ∧ well_split ls

/-! ## Facts about the text functions -/

theorem cstr_append_nul (a b : List Char) : cstr (a ++ NUL :: b) = cstr a := by
  induction a with
  | nil => simp [cstr, List.takeWhile]
  | cons c cs ih =>
    unfold cstr at ih ⊢
    by_cases h : c = NUL
    · simp [List.takeWhile, h]
    · simp [List.takeWhile, h, ih]

theorem cstr_of_no_nul (a : List Char) (h : NUL ∉ a) : cstr a = a := by
  unfold cstr
  rw [List.takeWhile_eq_self_iff]
  intro c hc
  have : c ≠ NUL := fun e => h (e ▸ hc)
  simpa using this

theorem name_of_line_eq (line : List Char) : name_of_line line = cstr (strip_newline line) := by
  rcases List.eq_nil_or_concat line with h | ⟨init, last, h⟩
  · subst h; decide
  · rw [List.concat_eq_append] at h
    subst h
    have hlen : (init ++ [last]).length - 1 = init.length := by simp
    unfold name_of_line terminate_name getline_buf strip_newline
    rw [hlen]
    have hget : (init ++ [last] ++ [NUL]).get? init.length = some last := by
      rw [List.append_assoc, List.get?_eq_getElem?,
        List.getElem?_append_right (Nat.le_refl _)]
      simp
    rw [hget]
    by_cases hl : last = NL
    · subst hl
      have hset : (init ++ [NL] ++ [NUL]).set init.length NUL = init ++ NUL :: [NUL] := by
        rw [List.append_assoc, List.set_append_right _ _ (Nat.le_refl _)]
        simp
      simp only [if_true, hset, cstr_append_nul]
      simp
    · have h1 : ¬ (some last = some NL) := by simpa using hl
      have h2 : ¬ ((init ++ [last]).getLast? = some NL) := by simpa using hl
      simp only [h1, h2, if_false]
      have := cstr_append_nul (init ++ [last]) []
      simpa using this

theorem is_skipped_iff (line : List Char) :
    is_skipped line = true ↔ line = [] ∨ line.head? = some HASH := by
  cases line with
  | nil => simp [is_skipped]
  | cons c cs => simp [is_skipped, getline_buf]

/-! ## The lines of a file -/

theorem split_lines_well_split (s : List Char) : well_split (split_lines s) := by
  induction s with
  | nil => trivial
  | cons c cs ih =>
    unfold split_lines
    by_cases hc : c = NL
    · rw [if_pos hc]
      subst hc
      exact ⟨by simp, by simp, fun _ => rfl, ih⟩
    · rw [if_neg hc]
      cases hs : split_lines cs with
      | nil => exact ⟨by simp, by simp, fun h => absurd rfl h, trivial⟩
      | cons l ls =>
        rw [hs] at ih
        obtain ⟨h1, h2, h3, h4⟩ := ih
        refine ⟨by simp, ?_, ?_, h4⟩
        · rw [List.dropLast_cons_of_ne_nil h1]
          intro hm
          rcases List.mem_cons.1 hm with h | h
          · exact hc h.symm
          · exact h2 h
        · intro hls
          obtain ⟨x, xs, hx⟩ := List.exists_cons_of_ne_nil h1
          subst hx
          rw [List.getLast?_cons_cons]
          exact h3 hls

/-- Cutting a file into lines is calling `getline` until it returns -1. -/
theorem split_lines_eq_getline (s : List Char) :
    split_lines s =
      match getline s with
      | none => []
      | some (line, rest) => line :: split_lines rest := by
  induction s with
  | nil => rfl
  | cons c cs ih =>
    conv_lhs => rw [split_lines]
    rw [getline]
    by_cases hc : c = NL
    · rw [if_pos hc, if_pos hc]
    · rw [if_neg hc, if_neg hc, ih]
      cases getline cs with
      | none => rfl
      | some p => rfl

/-- Every call of `getline` that delivers a line shortens the stream. -/
theorem getline_shortens (s line rest : List Char) (h : getline s = some (line, rest)) :
    rest.length < s.length ∧ line ++ rest = s := by
  induction s generalizing line rest with
  | nil => cases h
  | cons c cs ih =>
    unfold getline at h
    by_cases hc : c = NL
    · rw [if_pos hc] at h
      cases h
      exact ⟨by simp, rfl⟩
    · rw [if_neg hc] at h
      cases hg : getline cs with
      | none =>
        rw [hg] at h
        cases h
        cases cs with
        | nil => exact ⟨by simp, rfl⟩
        | cons d ds =>
          unfold getline at hg
          split_ifs at hg
          cases hg2 : getline ds <;> rw [hg2] at hg <;> cases hg
      | some p =>
        obtain ⟨l, r⟩ := p
        rw [hg] at h
        cases h
        obtain ⟨h1, h2⟩ := ih l rest hg
        exact ⟨by simp; omega, by simp [h2]⟩

theorem split_lines_ne_nil (s : List Char) : ∀ line ∈ split_lines s, line ≠ [] := by
  have h := split_lines_well_split s
  generalize split_lines s = ls at h
  induction ls with
  | nil => intro line hl; cases hl
  | cons l ls ih =>
    intro line hl
    rcases List.mem_cons.1 hl with e | e
    · rw [e]; exact h.1
    · exact ih h.2.2.2 line e

theorem well_split_erase (a : List (List Char)) (x : List Char) (b : List (List Char))
    (h : well_split (a ++ x :: b)) : well_split (a ++ b) := by
  induction a with
  | nil => exact h.2.2.2
  | cons l a ih =>
    obtain ⟨h1, h2, h3, h4⟩ := h
    exact ⟨h1, h2, fun _ => h3 (by simp), ih h4⟩

theorem split_lines_append_newline (body rest : List Char) (h : NL ∉ body) :
    split_lines (body ++ NL :: rest) = (body ++ [NL]) :: split_lines rest := by
  induction body with
  | nil => simp [split_lines]
  | cons c cs ih =>
    have hc : c ≠ NL := fun e => h (e ▸ List.mem_cons_self _ _)
    have hcs : NL ∉ cs := fun e => h (List.mem_cons_of_mem _ e)
    rw [List.cons_append, split_lines, if_neg hc, ih hcs]
    rfl

theorem split_lines_no_newline (l : List Char) (hne : l ≠ []) (h : NL ∉ l) :
    split_lines l = [l] := by
  induction l with
  | nil => exact absurd rfl hne
  | cons c cs ih =>
    have hc : c ≠ NL := fun e => h (e ▸ List.mem_cons_self _ _)
    have hcs : NL ∉ cs := fun e => h (List.mem_cons_of_mem _ e)
    rw [split_lines, if_neg hc]
    cases cs with
    | nil => rfl
    | cons d ds => rw [ih (by simp) hcs]

theorem split_lines_flatten (ls : List (List Char)) (h : well_split ls) :
    split_lines ls.flatten = ls := by
  induction ls with
  | nil => rfl
  | cons l ls ih =>
    obtain ⟨h1, h2, h3, h4⟩ := h
    rcases List.eq_nil_or_concat l with e | ⟨body, last, e⟩
    · exact absurd e h1
    · rw [List.concat_eq_append] at e
      subst e
      have hb : NL ∉ body := by simpa using h2
      by_cases hl : last = NL
      · subst hl
        rw [List.flatten_cons, List.append_assoc, List.singleton_append,
          split_lines_append_newline body _ hb, ih h4]
      · have hls : ls = [] := by
          by_contra hne
          have := h3 hne
          simp at this
          exact hl this
        subst hls
        have hn : NL ∉ body ++ [last] := by
          intro hm
          rcases List.mem_append.1 hm with h | h
          · exact hb h
          · have e : NL = last := by simpa using h
            exact hl e.symm
        simp only [List.flatten_cons, List.flatten_nil, List.append_nil]
        exact split_lines_no_newline _ (by simp) hn

/-- Removing a line from a file, as lines, gives the lines of the file without
it. -/
theorem split_lines_erase (s : List Char) (N : Nat) :
    split_lines ((split_lines s).eraseIdx N).flatten = (split_lines s).eraseIdx N := by
  apply split_lines_flatten
  by_cases hN : N < (split_lines s).length
  · have hw := split_lines_well_split s
    rw [← List.take_append_drop N (split_lines s), List.drop_eq_getElem_cons hN] at hw
    rw [List.eraseIdx_eq_take_drop_succ]
    exact well_split_erase _ _ _ hw
  · rw [List.eraseIdx_of_length_le (Nat.le_of_not_lt hN)]
    exact split_lines_well_split s

/-! ## Facts about the loop body -/

theorem loop_body_eq (env : Env) (ctx : scmp_filter_ctx) (line : List Char) :
    loop_body env ctx line =
      if is_skipped line then ([], Step.next ctx)
      else if env.resolve_name (name_of_line line) = __NR_SCMP_ERROR then
        ([Event.resolve (name_of_line line),
          Event.fprintf_stderr (msg_unresolved (name_of_line line))], Step.next ctx)
      else if env.rule_add_rc ctx (env.resolve_name (name_of_line line)) ≠ 0 then
        ([Event.resolve (name_of_line line),
          Event.rule_add SCMP_ACT_ALLOW (env.resolve_name (name_of_line line)) 0
            (env.rule_add_rc ctx (env.resolve_name (name_of_line line))),
          Event.fprintf_stderr (msg_add_error (name_of_line line))],
          Step.exit ctx EXIT_FAILURE)
      else
        ([Event.resolve (name_of_line line),
          Event.rule_add SCMP_ACT_ALLOW (env.resolve_name (name_of_line line)) 0
            (env.rule_add_rc ctx (env.resolve_name (name_of_line line)))],
          Step.next (rule_added ctx SCMP_ACT_ALLOW (env.resolve_name (name_of_line line)) 0)) := by
  have hs : is_skipped line = true ↔
      (line.length = 0 ∨ (getline_buf line).get? 0 = some HASH) := by
    unfold is_skipped
    rw [Bool.or_eq_true, beq_iff_eq, beq_iff_eq]
  unfold loop_body
  dsimp only
  by_cases h0 : line.length = 0
  · rw [if_pos h0, if_pos (hs.2 (Or.inl h0))]
  · by_cases h1 : (getline_buf line).get? 0 = some HASH
    · rw [if_neg h0, if_pos h1, if_pos (hs.2 (Or.inr h1))]
    · have hn : ¬ (is_skipped line = true) := fun h => (hs.1 h).elim h0 h1
      rw [if_neg h0, if_neg h1, if_neg hn]
      rfl

theorem with_rules_nil (ctx : scmp_filter_ctx) : with_rules ctx [] = ctx := rfl

theorem with_rules_with_rules (ctx : scmp_filter_ctx) (a b : List scmp_rule) :
    with_rules (with_rules ctx a) b = with_rules ctx (a ++ b) := by
  unfold with_rules
  rw [List.foldl_append]

theorem rule_added_eq (ctx : scmp_filter_ctx) (s : Int) :
    rule_added ctx SCMP_ACT_ALLOW s 0 = with_rules ctx [allow_rule s] := rfl

theorem rule_added_of_mem (ctx : scmp_filter_ctx) (s : Int) (h : allow_rule s ∈ ctx.rules) :
    with_rules ctx [allow_rule s] = ctx := by
  show rule_added ctx SCMP_ACT_ALLOW s 0 = ctx
  unfold rule_added
  exact if_pos h

theorem mem_rule_added (ctx : scmp_filter_ctx) (a : scmp_action) (s : Int) (n : Nat)
    (r : scmp_rule) :
    r ∈ (rule_added ctx a s n).rules ↔ r ∈ ctx.rules ∨ r = ⟨a, s, n⟩ := by
  unfold rule_added
  by_cases h : (⟨a, s, n⟩ : scmp_rule) ∈ ctx.rules
  · rw [if_pos h]
    constructor
    · exact Or.inl
    · rintro (h1 | h1)
      · exact h1
      · rw [h1]; exact h
  · rw [if_neg h]
    simp

theorem def_action_rule_added (ctx : scmp_filter_ctx) (a : scmp_action) (s : Int) (n : Nat) :
    (rule_added ctx a s n).def_action = ctx.def_action := by
  unfold rule_added
  split_ifs <;> rfl

theorem nodup_rule_added (ctx : scmp_filter_ctx) (a : scmp_action) (s : Int) (n : Nat)
    (h : ctx.rules.Nodup) : (rule_added ctx a s n).rules.Nodup := by
  unfold rule_added
  by_cases hm : (⟨a, s, n⟩ : scmp_rule) ∈ ctx.rules
  · rw [if_pos hm]; exact h
  · rw [if_neg hm]
    show (ctx.rules ++ [_]).Nodup
    rw [List.nodup_append]
    refine ⟨h, List.nodup_singleton _, ?_⟩
    intro x hx hx2
    rw [List.mem_singleton] at hx2
    exact hm (hx2 ▸ hx)

theorem mem_with_rules (rs : List scmp_rule) :
    ∀ (ctx : scmp_filter_ctx) (r : scmp_rule),
      r ∈ (with_rules ctx rs).rules ↔ r ∈ ctx.rules ∨ r ∈ rs := by
  induction rs with
  | nil => intro ctx r; simp [with_rules]
  | cons x xs ih =>
    intro ctx r
    show r ∈ (with_rules (rule_added ctx x.action x.syscall x.arg_cnt) xs).rules ↔ _
    rw [ih, mem_rule_added, List.mem_cons, or_assoc]

theorem def_action_with_rules (rs : List scmp_rule) :
    ∀ (ctx : scmp_filter_ctx), (with_rules ctx rs).def_action = ctx.def_action := by
  induction rs with
  | nil => intro ctx; rfl
  | cons x xs ih =>
    intro ctx
    show (with_rules (rule_added ctx x.action x.syscall x.arg_cnt) xs).def_action = _
    rw [ih, def_action_rule_added]

theorem nodup_with_rules (rs : List scmp_rule) :
    ∀ (ctx : scmp_filter_ctx), ctx.rules.Nodup → (with_rules ctx rs).rules.Nodup := by
  induction rs with
  | nil => intro ctx h; exact h
  | cons x xs ih =>
    intro ctx h
    show (with_rules (rule_added ctx x.action x.syscall x.arg_cnt) xs).rules.Nodup
    exact ih _ (nodup_rule_added ctx _ _ _ h)

theorem added_rules_nil (env : Env) : added_rules env [] = [] := rfl

theorem added_rules_cons (env : Env) (line : List Char) (rest : List (List Char)) :
    added_rules env (line :: rest) =
      (line_syscall env line).toList.map allow_rule ++ added_rules env rest := by
  unfold added_rules
  cases h : line_syscall env line <;> simp [List.filterMap_cons, h]

theorem Run.after_nil (r : Run) : r.after [] = r := rfl

theorem Run.after_after (a b : List Event) (r : Run) : (r.after b).after a = r.after (a ++ b) := by
  simp [Run.after]

/-! ## The ways the read loop ends -/

theorem read_fails_errno (env : Env) (k : Nat) (errno : Int) (h : read_fails env k = true) :
    errno_after_getline env k errno ≠ 0 := by
  unfold read_fails at h
  unfold errno_after_getline
  cases hr : env.read_error with
  | none => rw [hr] at h; simp at h
  | some p =>
    obtain ⟨j, e⟩ := p
    rw [hr] at h
    have hj : j = k := by simpa using h
    simp only [hj, if_true]
    exact e.property

theorem read_loop_read_fail (env : Env) (argv : List String) (line : List Char)
    (rest : List (List Char)) (k : Nat) (errno : Int) (ctx : scmp_filter_ctx)
    (hf : read_fails env k = true) :
    read_loop env argv (line :: rest) k errno ctx =
      ⟨[Event.perror "Failed to read line from input file"], some ctx, EXIT_FAILURE⟩ := by
  rw [read_loop, if_pos hf, getline_failed, if_pos (read_fails_errno env k errno hf)]

theorem read_loop_skip (env : Env) (argv : List String) (line : List Char)
    (rest : List (List Char)) (k : Nat) (errno : Int) (ctx : scmp_filter_ctx)
    (hf : ¬ read_fails env k = true) (hsk : is_skipped line = true) :
    read_loop env argv (line :: rest) k errno ctx = read_loop env argv rest (k + 1) errno ctx := by
  rw [read_loop, if_neg hf, loop_body_eq, if_pos hsk]
  rfl

theorem read_loop_unresolved (env : Env) (argv : List String) (line : List Char)
    (rest : List (List Char)) (k : Nat) (errno : Int) (ctx : scmp_filter_ctx)
    (hf : ¬ read_fails env k = true) (hsk : ¬ is_skipped line = true)
    (hres : env.resolve_name (name_of_line line) = __NR_SCMP_ERROR) :
    read_loop env argv (line :: rest) k errno ctx =
      (read_loop env argv rest (k + 1) errno ctx).after
        [Event.resolve (name_of_line line),
          Event.fprintf_stderr (msg_unresolved (name_of_line line))] := by
  rw [read_loop, if_neg hf, loop_body_eq, if_neg hsk, if_pos hres]

theorem read_loop_add_fail (env : Env) (argv : List String) (line : List Char)
    (rest : List (List Char)) (k : Nat) (errno : Int) (ctx : scmp_filter_ctx)
    (hf : ¬ read_fails env k = true) (hsk : ¬ is_skipped line = true)
    (hres : ¬ env.resolve_name (name_of_line line) = __NR_SCMP_ERROR)
    (hadd : env.rule_add_rc ctx (env.resolve_name (name_of_line line)) ≠ 0) :
    read_loop env argv (line :: rest) k errno ctx =
      ⟨[Event.resolve (name_of_line line),
          Event.rule_add SCMP_ACT_ALLOW (env.resolve_name (name_of_line line)) 0
            (env.rule_add_rc ctx (env.resolve_name (name_of_line line))),
          Event.fprintf_stderr (msg_add_error (name_of_line line))],
        some ctx, EXIT_FAILURE⟩ := by
  rw [read_loop, if_neg hf, loop_body_eq, if_neg hsk, if_neg hres, if_pos hadd]

theorem read_loop_add_ok (env : Env) (argv : List String) (line : List Char)
    (rest : List (List Char)) (k : Nat) (errno : Int) (ctx : scmp_filter_ctx)
    (hf : ¬ read_fails env k = true) (hsk : ¬ is_skipped line = true)
    (hres : ¬ env.resolve_name (name_of_line line) = __NR_SCMP_ERROR)
    (hadd : env.rule_add_rc ctx (env.resolve_name (name_of_line line)) = 0) :
    read_loop env argv (line :: rest) k errno ctx =
      (read_loop env argv rest (k + 1) errno
          (with_rules ctx [allow_rule (env.resolve_name (name_of_line line))])).after
        [Event.resolve (name_of_line line),
          Event.rule_add SCMP_ACT_ALLOW (env.resolve_name (name_of_line line)) 0 0] := by
  rw [read_loop, if_neg hf, loop_body_eq, if_neg hsk, if_neg hres, if_neg (not_not.2 hadd), hadd]
  rfl

theorem quiet_append (a b : List Event) (ha : ∀ ev ∈ a, Event.loop_quiet ev = true)
    (hb : ∀ ev ∈ b, Event.loop_quiet ev = true) : ∀ ev ∈ a ++ b, Event.loop_quiet ev = true := by
  intro ev hev
  rcases List.mem_append.1 hev with h | h
  · exact ha ev h
  · exact hb ev h

theorem quiet_unresolved (name : List Char) :
    ∀ ev ∈ [Event.resolve name, Event.fprintf_stderr (msg_unresolved name)],
      Event.loop_quiet ev = true := by
  intro ev hev
  simp only [List.mem_cons, List.mem_singleton, List.not_mem_nil, or_false] at hev
  rcases hev with h | h <;> subst h <;> rfl

theorem quiet_added (name : List Char) (s : Int) :
    ∀ ev ∈ [Event.resolve name, Event.rule_add SCMP_ACT_ALLOW s 0 0],
      Event.loop_quiet ev = true := by
  intro ev hev
  simp only [List.mem_cons, List.mem_singleton, List.not_mem_nil, or_false] at hev
  rcases hev with h | h <;> subst h <;> rfl

/-- Either the loop runs to the end of the file and hands the filter built from
all lines to the code after it, or a read is reported as failed, or a rule
could not be added; in the last two cases the run ends there. -/
theorem read_loop_cases (env : Env) (argv : List String) :
    ∀ (lines : List (List Char)) (k : Nat) (errno : Int) (ctx : scmp_filter_ctx),
      (∃ evs, (∀ ev ∈ evs, Event.loop_quiet ev = true) ∧
        read_loop env argv lines k errno ctx =
          (after_loop env argv (with_rules ctx (added_rules env lines))).after evs)
      ∨ (∃ evs done, (∀ ev ∈ evs, Event.loop_quiet ev = true) ∧ done <+: lines ∧
        (∃ j, errno_after_getline env j errno ≠ 0) ∧
        read_loop env argv lines k errno ctx =
          ⟨evs ++ [Event.perror "Failed to read line from input file"],
            some (with_rules ctx (added_rules env done)), EXIT_FAILURE⟩)
      ∨ (∃ evs done name s rc, (∀ ev ∈ evs, Event.loop_quiet ev = true) ∧ done <+: lines ∧
        rc ≠ 0 ∧ (∃ c, rc = env.rule_add_rc c s) ∧
        read_loop env argv lines k errno ctx =
          ⟨evs ++ [Event.resolve name, Event.rule_add SCMP_ACT_ALLOW s 0 rc,
              Event.fprintf_stderr (msg_add_error name)],
            some (with_rules ctx (added_rules env done)), EXIT_FAILURE⟩) := by
  intro lines
  induction lines with
  | nil =>
    intro k errno ctx
    rw [read_loop, getline_failed]
    by_cases h : errno_after_getline env k errno ≠ 0
    · right; left
      refine ⟨[], [], by simp, List.prefix_refl _, ⟨k, h⟩, ?_⟩
      rw [if_pos h, added_rules_nil, with_rules_nil]; rfl
    · left
      refine ⟨[], by simp, ?_⟩
      rw [if_neg h, added_rules_nil, with_rules_nil]; rfl
  | cons line rest ih =>
    intro k errno ctx
    by_cases hf : read_fails env k = true
    · right; left
      refine ⟨[], [], by simp, List.nil_prefix, ⟨k, read_fails_errno env k errno hf⟩, ?_⟩
      rw [read_loop_read_fail env argv line rest k errno ctx hf, added_rules_nil, with_rules_nil]
      rfl
    · by_cases hsk : is_skipped line = true
      · have hls : line_syscall env line = none := by simp [line_syscall, hsk]
        have har : ∀ done, added_rules env (line :: done) = added_rules env done := by
          intro done; rw [added_rules_cons, hls]; rfl
        rw [read_loop_skip env argv line rest k errno ctx hf hsk, har]
        rcases ih (k + 1) errno ctx with ⟨evs, hq, he⟩ | ⟨evs, done, hq, hp, hw, he⟩ |
            ⟨evs, done, name, s, rc, hq, hp, hrc, hw, he⟩
        · exact Or.inl ⟨evs, hq, he⟩
        · refine Or.inr (Or.inl ⟨evs, line :: done, hq, by simpa using hp, hw, ?_⟩)
          rw [he, har]
        · refine Or.inr (Or.inr ⟨evs, line :: done, name, s, rc, hq, by simpa using hp, hrc, hw, ?_⟩)
          rw [he, har]
      · by_cases hres : env.resolve_name (name_of_line line) = __NR_SCMP_ERROR
        · have hls : line_syscall env line = none := by simp [line_syscall, hsk, hres]
          have har : ∀ done, added_rules env (line :: done) = added_rules env done := by
            intro done; rw [added_rules_cons, hls]; rfl
          rw [read_loop_unresolved env argv line rest k errno ctx hf hsk hres, har]
          rcases ih (k + 1) errno ctx with ⟨evs, hq, he⟩ | ⟨evs, done, hq, hp, hw, he⟩ |
              ⟨evs, done, name, s, rc, hq, hp, hrc, hw, he⟩
          · refine Or.inl ⟨_ ++ evs, quiet_append _ _ (quiet_unresolved (name_of_line line)) hq, ?_⟩
            rw [he, Run.after_after]
          · refine Or.inr (Or.inl ⟨_ ++ evs, line :: done,
              quiet_append _ _ (quiet_unresolved (name_of_line line)) hq, by simpa using hp, hw, ?_⟩)
            rw [he, har]; simp [Run.after]
          · refine Or.inr (Or.inr ⟨_ ++ evs, line :: done, name, s, rc,
              quiet_append _ _ (quiet_unresolved (name_of_line line)) hq, by simpa using hp, hrc, hw, ?_⟩)
            rw [he, har]; simp [Run.after]
        · have hls : line_syscall env line = some (env.resolve_name (name_of_line line)) := by
            simp [line_syscall, hsk, hres]
          have har : ∀ done, added_rules env (line :: done) =
              [allow_rule (env.resolve_name (name_of_line line))] ++ added_rules env done := by
            intro done; rw [added_rules_cons, hls]; rfl
          by_cases hadd : env.rule_add_rc ctx (env.resolve_name (name_of_line line)) ≠ 0
          · rw [read_loop_add_fail env argv line rest k errno ctx hf hsk hres hadd]
            refine Or.inr (Or.inr ⟨[], [], name_of_line line, env.resolve_name (name_of_line line),
              env.rule_add_rc ctx (env.resolve_name (name_of_line line)), by simp,
              List.nil_prefix, hadd, ⟨ctx, rfl⟩, ?_⟩)
            rw [added_rules_nil, with_rules_nil]; rfl
          · have hadd0 : env.rule_add_rc ctx (env.resolve_name (name_of_line line)) = 0 := by
              simpa using hadd
            rw [read_loop_add_ok env argv line rest k errno ctx hf hsk hres hadd0, har]
            rcases ih (k + 1) errno (with_rules ctx [allow_rule (env.resolve_name (name_of_line line))])
              with ⟨evs, hq, he⟩ | ⟨evs, done, hq, hp, hw, he⟩ |
                ⟨evs, done, name, s, rc, hq, hp, hrc, hw, he⟩
            · refine Or.inl ⟨_ ++ evs, quiet_append _ _ (quiet_added (name_of_line line) (env.resolve_name (name_of_line line))) hq, ?_⟩
              rw [he, Run.after_after, with_rules_with_rules]
            · refine Or.inr (Or.inl ⟨_ ++ evs, line :: done,
                quiet_append _ _ (quiet_added (name_of_line line) (env.resolve_name (name_of_line line))) hq, by simpa using hp, hw, ?_⟩)
              rw [he, har, with_rules_with_rules]; simp [Run.after]
            · refine Or.inr (Or.inr ⟨_ ++ evs, line :: done, name, s, rc,
                quiet_append _ _ (quiet_added (name_of_line line) (env.resolve_name (name_of_line line))) hq, by simpa using hp, hrc, hw, ?_⟩)
              rw [he, har, with_rules_with_rules]; simp [Run.after]

/-! ## The run as a whole -/

theorem after_loop_filter (env : Env) (argv : List String) (ctx : scmp_filter_ctx) :
    (after_loop env argv ctx).filter_ctx = some ctx := by
  unfold after_loop
  dsimp only
  split_ifs <;> rfl

theorem mem_after_loop (env : Env) (argv : List String) (ctx : scmp_filter_ctx) (ev : Event)
    (h : ev ∈ (after_loop env argv ctx).trace) :
    ev = Event.fclose "txt" ∨ ev = Event.fopen (argv.getD 2 "") "w" ∨ ev = Event.export_pfc ctx ∨
      ev = Event.export_bpf ctx (argv.getD 2 "") ∨ ev = Event.fclose "bpf" ∨ ev = Event.release ∨
      ∃ msg, ev = Event.perror msg := by
  unfold after_loop at h
  dsimp only at h
  split_ifs at h <;>
    simp only [List.mem_cons, List.mem_singleton, List.not_mem_nil, or_false] at h <;>
    (casesm* _ ∨ _) <;> subst_vars <;> simp

/-- The three ways a run ends once the input file is open. -/
theorem main_cases (env : Env) (fs : String → Option (List Char)) (argv : List String)
    (content : List Char) (hargc : argv.length = 3) (hin : fs (argv.getD 1 "") = some content) :
    (∃ evs, (∀ ev ∈ evs, Event.loop_quiet ev = true) ∧
      main env fs argv =
        (after_loop env argv
          (with_rules (seccomp_init SCMP_ACT_KILL) (added_rules env (split_lines content)))).after
          (Event.fopen (argv.getD 1 "") "r" :: evs))
    ∨ (∃ evs done, (∀ ev ∈ evs, Event.loop_quiet ev = true) ∧ done <+: split_lines content ∧
      (∃ j, errno_after_getline env j env.errno_entry ≠ 0) ∧
      main env fs argv =
        ⟨Event.fopen (argv.getD 1 "") "r" :: evs ++
            [Event.perror "Failed to read line from input file"],
          some (with_rules (seccomp_init SCMP_ACT_KILL) (added_rules env done)), EXIT_FAILURE⟩)
    ∨ (∃ evs done name s rc, (∀ ev ∈ evs, Event.loop_quiet ev = true) ∧
      done <+: split_lines content ∧ rc ≠ 0 ∧ (∃ c, rc = env.rule_add_rc c s) ∧
      main env fs argv =
        ⟨Event.fopen (argv.getD 1 "") "r" :: evs ++
            [Event.resolve name, Event.rule_add SCMP_ACT_ALLOW s 0 rc,
              Event.fprintf_stderr (msg_add_error name)],
          some (with_rules (seccomp_init SCMP_ACT_KILL) (added_rules env done)), EXIT_FAILURE⟩) := by
  have hm : main env fs argv =
      (read_loop env argv (split_lines content) 0 env.errno_entry
        (seccomp_init SCMP_ACT_KILL)).after [Event.fopen (argv.getD 1 "") "r"] := by
    unfold main
    rw [if_neg (not_not.2 hargc)]
    simp only [hin]
  rw [hm]
  rcases read_loop_cases env argv (split_lines content) 0 env.errno_entry
      (seccomp_init SCMP_ACT_KILL) with ⟨evs, hq, he⟩ | ⟨evs, done, hq, hp, hw, he⟩ |
        ⟨evs, done, name, s, rc, hq, hp, hrc, hw, he⟩
  · exact Or.inl ⟨evs, hq, by rw [he, Run.after_after]; rfl⟩
  · exact Or.inr (Or.inl ⟨evs, done, hq, hp, hw, by rw [he]; simp [Run.after]⟩)
  · exact Or.inr (Or.inr ⟨evs, done, name, s, rc, hq, hp, hrc, hw, by rw [he]; simp [Run.after]⟩)

theorem main_usage (env : Env) (fs : String → Option (List Char)) (argv : List String)
    (hargc : argv.length ≠ 3) :
    main env fs argv = ⟨[Event.fprintf_stderr (msg_usage (argv.getD 0 ""))], none, EXIT_FAILURE⟩ := by
  unfold main
  rw [if_pos hargc]

theorem main_no_input (env : Env) (fs : String → Option (List Char)) (argv : List String)
    (hargc : argv.length = 3) (hin : fs (argv.getD 1 "") = none) :
    main env fs argv =
      ⟨[Event.fopen (argv.getD 1 "") "r", Event.perror "Failed to open input file"],
        some (seccomp_init SCMP_ACT_KILL), EXIT_FAILURE⟩ := by
  unfold main
  rw [if_neg (not_not.2 hargc)]
  simp only [hin]

theorem quiet_not_export (ev : Event) (h : Event.loop_quiet ev = true) :
    Event.is_export ev = false ∧ Event.is_fopen ev = false ∧ Event.opens_for_writing ev = false := by
  cases ev <;> simp [Event.loop_quiet] at h <;> simp [Event.is_export, Event.is_fopen,
    Event.opens_for_writing]

/-- A filter that reaches the exporter is the one built from all lines of the
input file. -/
theorem exported_is_complete (env : Env) (fs : String → Option (List Char))
    (argv : List String) (content : List Char) (ctx : scmp_filter_ctx)
    (hin : fs (argv.getD 1 "") = some content)
    (hexp : handed_to_exporter (main env fs argv) ctx) :
    ctx = with_rules (seccomp_init SCMP_ACT_KILL) (added_rules env (split_lines content)) := by
  have hexp2 : ∃ ev ∈ (main env fs argv).trace, Event.is_export ev = true ∧
      (ev = Event.export_pfc ctx ∨ ∃ path, ev = Event.export_bpf ctx path) := by
    rcases hexp with h | ⟨path, h⟩
    · exact ⟨_, h, rfl, Or.inl rfl⟩
    · exact ⟨_, h, rfl, Or.inr ⟨path, rfl⟩⟩
  obtain ⟨ev, hmem, hisx, hev⟩ := hexp2
  by_cases hargc : argv.length = 3
  · rcases main_cases env fs argv content hargc hin with ⟨evs, hq, he⟩ | ⟨evs, done, hq, _, _, he⟩ |
        ⟨evs, done, name, s, rc, hq, _, _, _, he⟩
    · rw [he] at hmem
      simp only [Run.after, List.cons_append, List.mem_cons, List.mem_append] at hmem
      rcases hmem with h | h | h
      · subst h; simp [Event.is_export] at hisx
      · have := (quiet_not_export ev (hq ev h)).1
        rw [this] at hisx; cases hisx
      · rcases mem_after_loop env argv _ ev h with h | h | h | h | h | h | ⟨m, h⟩ <;>
          subst h <;> simp [Event.is_export] at hisx <;>
          rcases hev with h2 | ⟨path, h2⟩ <;> simp at h2 <;> first | exact h2.symm | exact h2.1.symm
    · rw [he] at hmem
      simp only [List.cons_append, List.mem_cons, List.mem_append, List.mem_singleton,
        List.not_mem_nil, or_false] at hmem
      rcases hmem with h | h | h
      · subst h; simp [Event.is_export] at hisx
      · have := (quiet_not_export ev (hq ev h)).1
        rw [this] at hisx; cases hisx
      · subst h; simp [Event.is_export] at hisx
    · rw [he] at hmem
      simp only [List.cons_append, List.mem_cons, List.mem_append, List.mem_singleton,
        List.not_mem_nil, or_false] at hmem
      rcases hmem with h | h | h | h | h
      · subst h; simp [Event.is_export] at hisx
      · have := (quiet_not_export ev (hq ev h)).1
        rw [this] at hisx; cases hisx
      all_goals subst h; simp [Event.is_export] at hisx
  · rw [main_usage env fs argv hargc] at hmem
    simp only [List.mem_singleton] at hmem
    subst hmem; simp [Event.is_export] at hisx

theorem errno_after_getline_none (env : Env) (k : Nat) (errno : Int)
    (h : env.read_error = none) : errno_after_getline env k errno = errno := by
  unfold errno_after_getline
  rw [h]

theorem exit_failure_ne_zero : EXIT_FAILURE ≠ 0 := by decide

theorem fopen_r_not_for_writing (path : String) :
    Event.opens_for_writing (Event.fopen path "r") = false := by
  show ("r" == "w") = false
  decide

/-! ## A line the resolver does not know -/

theorem read_fails_none (env : Env) (h : env.read_error = none) (k : Nat) :
    ¬ read_fails env k = true := by
  unfold read_fails
  rw [h]
  simp

/-- Without read errors the loop does not depend on the count of calls. -/
theorem read_loop_index (env : Env) (argv : List String) (h : env.read_error = none) :
    ∀ (lines : List (List Char)) (k k' : Nat) (errno : Int) (ctx : scmp_filter_ctx),
      read_loop env argv lines k errno ctx = read_loop env argv lines k' errno ctx := by
  intro lines
  induction lines with
  | nil =>
    intro k k' errno ctx
    rw [read_loop, read_loop, getline_failed, getline_failed, errno_after_getline_none env k _ h,
      errno_after_getline_none env k' _ h]
  | cons line rest ih =>
    intro k k' errno ctx
    rw [read_loop, read_loop, if_neg (read_fails_none env h k), if_neg (read_fails_none env h k')]
    rcases loop_body env ctx line with ⟨evs, st⟩
    cases st with
    | next c => simp only [ih (k + 1) (k' + 1)]
    | exit c st => rfl

theorem read_loop_erase (env : Env) (argv : List String) (hread : env.read_error = none)
    (line : List Char) (hsk : ¬ is_skipped line = true)
    (hres : env.resolve_name (name_of_line line) = __NR_SCMP_ERROR) (l2 : List (List Char)) :
    ∀ (l1 : List (List Char)) (k k' : Nat) (errno : Int) (ctx : scmp_filter_ctx),
      (read_loop env argv (l1 ++ line :: l2) k errno ctx).filter_ctx =
          (read_loop env argv (l1 ++ l2) k' errno ctx).filter_ctx ∧
        (read_loop env argv (l1 ++ line :: l2) k errno ctx).status =
          (read_loop env argv (l1 ++ l2) k' errno ctx).status ∧
        ((∀ a s n rc, Event.rule_add a s n rc ∈
              (read_loop env argv (l1 ++ line :: l2) k errno ctx).trace → rc = 0) →
          Event.fprintf_stderr (msg_unresolved (name_of_line line)) ∈
            (read_loop env argv (l1 ++ line :: l2) k errno ctx).trace) := by
  have hf := read_fails_none env hread
  intro l1
  induction l1 with
  | nil =>
    intro k k' errno ctx
    rw [List.nil_append, List.nil_append,
      read_loop_unresolved env argv line l2 k errno ctx (hf k) hsk hres,
      read_loop_index env argv hread l2 (k + 1) k' errno ctx]
    refine ⟨rfl, rfl, fun _ => ?_⟩
    simp [Run.after]
  | cons l l1 ih =>
    intro k k' errno ctx
    rw [List.cons_append, List.cons_append]
    by_cases hsk1 : is_skipped l = true
    · rw [read_loop_skip env argv l _ k errno ctx (hf k) hsk1,
        read_loop_skip env argv l _ k' errno ctx (hf k') hsk1]
      exact ih (k + 1) (k' + 1) errno ctx
    · by_cases hres1 : env.resolve_name (name_of_line l) = __NR_SCMP_ERROR
      · rw [read_loop_unresolved env argv l _ k errno ctx (hf k) hsk1 hres1,
          read_loop_unresolved env argv l _ k' errno ctx (hf k') hsk1 hres1]
        obtain ⟨h1, h2, h3⟩ := ih (k + 1) (k' + 1) errno ctx
        refine ⟨h1, h2, fun hall => ?_⟩
        have := h3 (fun a s n rc hm => hall a s n rc (List.mem_append_right _ hm))
        exact List.mem_append_right _ this
      · by_cases hadd : env.rule_add_rc ctx (env.resolve_name (name_of_line l)) ≠ 0
        · rw [read_loop_add_fail env argv l _ k errno ctx (hf k) hsk1 hres1 hadd,
            read_loop_add_fail env argv l _ k' errno ctx (hf k') hsk1 hres1 hadd]
          refine ⟨rfl, rfl, fun hall => ?_⟩
          exact absurd (hall _ _ _ _ (List.mem_cons_of_mem _ (List.mem_cons_self _ _))) hadd
        · have hadd0 : env.rule_add_rc ctx (env.resolve_name (name_of_line l)) = 0 := by
            simpa using hadd
          rw [read_loop_add_ok env argv l _ k errno ctx (hf k) hsk1 hres1 hadd0,
            read_loop_add_ok env argv l _ k' errno ctx (hf k') hsk1 hres1 hadd0]
          obtain ⟨h1, h2, h3⟩ := ih (k + 1) (k' + 1) errno
            (with_rules ctx [allow_rule (env.resolve_name (name_of_line l))])
          refine ⟨h1, h2, fun hall => ?_⟩
          have := h3 (fun a s n rc hm => hall a s n rc (List.mem_append_right _ hm))
          exact List.mem_append_right _ this

/-! ## The filter that is built -/

theorem not_resolves_of_skipped (env : Env) (line : List Char) (n : Int)
    (hsk : is_skipped line = true) : ¬ line_resolves_to env line n := by
  rintro ⟨h1, h2, _⟩
  rcases (is_skipped_iff line).1 hsk with h | h
  · exact h1 h
  · exact h2 h

theorem resolves_iff_of_not_skipped (env : Env) (line : List Char) (n : Int)
    (hsk : ¬ is_skipped line = true) :
    line_resolves_to env line n ↔ env.resolve_name (name_of_line line) = n := by
  unfold line_resolves_to seccomp_syscall_resolve_name_arch
  rw [← name_of_line_eq]
  constructor
  · exact fun h => h.2.2
  · intro h
    exact ⟨fun e => hsk ((is_skipped_iff line).2 (Or.inl e)),
      fun e => hsk ((is_skipped_iff line).2 (Or.inr e)), h⟩

theorem line_syscall_eq_some (env : Env) (line : List Char) (n : Int) :
    line_syscall env line = some n ↔ n ≠ __NR_SCMP_ERROR ∧ line_resolves_to env line n := by
  unfold line_syscall line_resolves_to seccomp_syscall_resolve_name_arch
  rw [← name_of_line_eq]
  by_cases hsk : is_skipped line = true
  · rw [if_pos hsk]
    have := (is_skipped_iff line).1 hsk
    constructor
    · intro h; cases h
    · rintro ⟨_, h1, h2, _⟩
      rcases this with h | h
      · exact absurd h h1
      · exact absurd h h2
  · rw [if_neg hsk]
    have hns : ¬ (line = [] ∨ line.head? = some HASH) := fun h => hsk ((is_skipped_iff line).2 h)
    have h1 : line ≠ [] := fun h => hns (Or.inl h)
    have h2 : line.head? ≠ some HASH := fun h => hns (Or.inr h)
    by_cases hres : env.resolve_name (name_of_line line) = __NR_SCMP_ERROR
    · rw [if_pos hres]
      constructor
      · intro h; cases h
      · rintro ⟨hn, _, _, h⟩
        exact absurd (h ▸ hres) hn
    · rw [if_neg hres]
      constructor
      · intro h
        have h3 : env.resolve_name (name_of_line line) = n := by simpa using h
        exact ⟨h3 ▸ hres, h1, h2, h3⟩
      · rintro ⟨_, _, _, h⟩
        rw [h]

theorem mem_added_rules (env : Env) (lines : List (List Char)) (r : scmp_rule) :
    r ∈ added_rules env lines ↔
      ∃ line ∈ lines, ∃ n, line_syscall env line = some n ∧ r = allow_rule n := by
  unfold added_rules
  simp only [List.mem_map, List.mem_filterMap]
  constructor
  · rintro ⟨n, ⟨line, hl, hs⟩, hr⟩
    exact ⟨line, hl, n, hs, hr.symm⟩
  · rintro ⟨line, hl, n, hs, hr⟩
    exact ⟨n, ⟨line, hl, hs⟩, hr.symm⟩

theorem mem_built_rules (env : Env) (lines : List (List Char)) (r : scmp_rule) :
    r ∈ (with_rules (seccomp_init SCMP_ACT_KILL) (added_rules env lines)).rules ↔
      r ∈ added_rules env lines := by
  rw [mem_with_rules]
  constructor
  · rintro (h | h)
    · cases h
    · exact h
  · exact Or.inr

theorem filter_action_added (env : Env) (lines : List (List Char)) (n : Int) :
    filter_action (with_rules (seccomp_init SCMP_ACT_KILL) (added_rules env lines)) n
        = SCMP_ACT_ALLOW ↔
      ∃ line ∈ lines, line_syscall env line = some n := by
  unfold filter_action
  cases hf : (with_rules (seccomp_init SCMP_ACT_KILL) (added_rules env lines)).rules.find?
      (fun r => r.syscall == n) with
  | none =>
    have hd : (with_rules (seccomp_init SCMP_ACT_KILL) (added_rules env lines)).def_action =
        SCMP_ACT_KILL := def_action_with_rules _ _
    simp only [hd]
    constructor
    · intro h; cases h
    · rintro ⟨line, hl, hs⟩
      have hmem : allow_rule n ∈
          (with_rules (seccomp_init SCMP_ACT_KILL) (added_rules env lines)).rules :=
        (mem_built_rules env lines _).2 ((mem_added_rules env lines _).2 ⟨line, hl, n, hs, rfl⟩)
      have := List.find?_eq_none.1 hf _ hmem
      simp [allow_rule] at this
  | some r =>
    have hmem : r ∈ added_rules env lines :=
      (mem_built_rules env lines r).1 (List.mem_of_find?_eq_some hf)
    have hp := List.find?_some hf
    obtain ⟨line, hl, m, hs, hr⟩ := (mem_added_rules env lines r).1 hmem
    subst hr
    have hmn : m = n := by simpa [allow_rule] using hp
    subst hmn
    simp only [allow_rule, true_iff]
    exact ⟨line, hl, hs⟩

/-- The filter built from the lines holds exactly one allow rule for a syscall
number that some line resolves to. -/
theorem allow_rule_count_built (env : Env) (lines : List (List Char)) (n : Int)
    (h : ∃ line ∈ lines, line_syscall env line = some n) :
    allow_rule_count (with_rules (seccomp_init SCMP_ACT_KILL) (added_rules env lines)) n = 1 := by
  obtain ⟨line, hl, hs⟩ := h
  have hmem : allow_rule n ∈
      (with_rules (seccomp_init SCMP_ACT_KILL) (added_rules env lines)).rules :=
    (mem_built_rules env lines _).2 ((mem_added_rules env lines _).2 ⟨line, hl, n, hs, rfl⟩)
  have hnd : (with_rules (seccomp_init SCMP_ACT_KILL) (added_rules env lines)).rules.Nodup :=
    nodup_with_rules _ _ List.nodup_nil
  unfold allow_rule_count
  rw [← List.countP_eq_length_filter, ← List.count_eq_one_of_mem hnd hmem, List.count]
  apply List.countP_congr
  intro r hr
  obtain ⟨l, _, m, _, hrm⟩ :=
    (mem_added_rules env lines r).1 ((mem_built_rules env lines r).1 hr)
  subst hrm
  simp [allow_rule]

/-! ## Properties of the program -/

/-- C1: whenever a filter reaches the exporter, its default action is kill,
every rule of it is an allow rule without argument comparison, and it allows
syscall number `n` exactly when some input line that is neither zero-length nor
a comment has a name, the line minus one trailing newline, that the resolver
maps to `n` (the sentinel `__NR_SCMP_ERROR` is the resolver's "unknown name"
and is no syscall number). -/
theorem exported_filter_allows_exactly_resolved_lines (env : Env)
    (fs : String → Option (List Char)) (argv : List String) (content : List Char)
    (ctx : scmp_filter_ctx)
    (hin : fs (argv.getD 1 "") = some content)
    (hexp : handed_to_exporter (main env fs argv) ctx) :
    ctx.def_action = SCMP_ACT_KILL ∧
      (∀ r ∈ ctx.rules, r.action = SCMP_ACT_ALLOW ∧ r.arg_cnt = 0) ∧
      ∀ n, filter_action ctx n = SCMP_ACT_ALLOW ↔
        (n ≠ __NR_SCMP_ERROR ∧ ∃ line ∈ split_lines content, line_resolves_to env line n) := by
  have hc := exported_is_complete env fs argv content ctx hin hexp
  subst hc
  refine ⟨def_action_with_rules _ _, ?_, ?_⟩
  · intro r hr
    have hr2 : r ∈ added_rules env (split_lines content) :=
      (mem_built_rules env _ r).1 hr
    obtain ⟨line, _, n, _, hr3⟩ := (mem_added_rules env _ r).1 hr2
    subst hr3
    exact ⟨rfl, rfl⟩
  · intro n
    rw [filter_action_added]
    constructor
    · rintro ⟨line, hl, hs⟩
      have := (line_syscall_eq_some env line n).1 hs
      exact ⟨this.1, line, hl, this.2⟩
    · rintro ⟨hn, line, hl, hs⟩
      exact ⟨line, hl, (line_syscall_eq_some env line n).2 ⟨hn, hs⟩⟩

/-- C1, at the input of the spec: the run on
`read\n#comment\n\nwrite\nbogus_syscall_xyz\n` hands to the exporter the filter
with exactly two rules, allowing `read` (0) and `write` (1), and that filter has
the properties of the general statement. -/
theorem exported_filter_allows_exactly_resolved_lines_witness :
    handed_to_exporter
        (main sample_env (one_file "read\n#comment\n\nwrite\nbogus_syscall_xyz\n") sample_argv)
        ⟨SCMP_ACT_KILL, [allow_rule 0, allow_rule 1]⟩ ∧
      (main sample_env (one_file "read\n#comment\n\nwrite\nbogus_syscall_xyz\n")
        sample_argv).status = EXIT_SUCCESS ∧
      (∀ r ∈ [allow_rule 0, allow_rule 1], r.action = SCMP_ACT_ALLOW ∧ r.arg_cnt = 0) ∧
      ∀ n, filter_action ⟨SCMP_ACT_KILL, [allow_rule 0, allow_rule 1]⟩ n = SCMP_ACT_ALLOW ↔
        (n ≠ __NR_SCMP_ERROR ∧
          ∃ line ∈ split_lines "read\n#comment\n\nwrite\nbogus_syscall_xyz\n".toList,
            line_resolves_to sample_env line n) :=
  ⟨Or.inl (by decide), by decide,
    (exported_filter_allows_exactly_resolved_lines sample_env
      (one_file "read\n#comment\n\nwrite\nbogus_syscall_xyz\n") sample_argv
      "read\n#comment\n\nwrite\nbogus_syscall_xyz\n".toList
      ⟨SCMP_ACT_KILL, [allow_rule 0, allow_rule 1]⟩ (by decide) (Or.inl (by decide))).2⟩

theorem added_rules_of_none (env : Env) (lines : List (List Char))
    (h : ∀ line ∈ lines, line_syscall env line = none) : added_rules env lines = [] := by
  induction lines with
  | nil => rfl
  | cons line rest ih =>
    rw [added_rules_cons, h line (List.mem_cons_self _ _),
      ih (fun l hl => h l (List.mem_cons_of_mem _ hl))]
    rfl

theorem line_syscall_blank (env : Env) (h : env.resolve_name [] = __NR_SCMP_ERROR) :
    line_syscall env [NL] = none := by
  have hn : name_of_line [NL] = [] := by decide
  unfold line_syscall
  rw [hn, if_pos h]
  simp

theorem line_syscall_comment (env : Env) (line : List Char) (h : line.head? = some HASH) :
    line_syscall env line = none := by
  unfold line_syscall
  rw [if_pos ((is_skipped_iff line).2 (Or.inr h))]

/-- C2: when every line of the input file is blank (a lone newline) or a
comment (first character `#`), the filter has no rule and its default action is
kill, at the end of the run and whenever it is handed to the exporter.  Blank
lines do reach the resolver, as the empty name, which the resolver is taken not
to know. -/
theorem blank_and_comment_lines_add_no_rule (env : Env) (fs : String → Option (List Char))
    (argv : List String) (content : List Char)
    (hargc : argv.length = 3)
    (hin : fs (argv.getD 1 "") = some content)
    (hlines : ∀ line ∈ split_lines content, line = [NL] ∨ line.head? = some HASH)
    (hempty : env.resolve_name [] = __NR_SCMP_ERROR) :
    (main env fs argv).filter_ctx = some ⟨SCMP_ACT_KILL, []⟩ ∧
      ∀ ctx, handed_to_exporter (main env fs argv) ctx →
        ctx.rules = [] ∧ ctx.def_action = SCMP_ACT_KILL := by
  have hnone : ∀ line ∈ split_lines content, line_syscall env line = none := by
    intro line hl
    rcases hlines line hl with h | h
    · rw [h]; exact line_syscall_blank env hempty
    · exact line_syscall_comment env line h
  have hdone : ∀ done, done <+: split_lines content → added_rules env done = [] := by
    intro done hp
    exact added_rules_of_none env done (fun l hl => hnone l (hp.subset hl))
  constructor
  · rcases main_cases env fs argv content hargc hin with ⟨evs, _, he⟩ | ⟨evs, done, _, hp, _, he⟩ |
        ⟨evs, done, name, s, rc, _, hp, _, _, he⟩
    · rw [he]
      show (after_loop env argv _).filter_ctx = _
      rw [after_loop_filter, hdone _ (List.prefix_refl _)]
      rfl
    · rw [he, hdone done hp]; rfl
    · rw [he, hdone done hp]; rfl
  · intro ctx hexp
    have hc := exported_is_complete env fs argv content ctx hin hexp
    rw [hdone _ (List.prefix_refl _)] at hc
    subst hc
    exact ⟨rfl, rfl⟩

/-- C2, at a concrete input: a file of two blank lines and two comments, the
last one without a newline, gives the empty kill-by-default filter, which is
exported. -/
theorem blank_and_comment_lines_add_no_rule_witness :
    (main sample_env (one_file "\n# allowed syscalls\n\n#read") sample_argv).filter_ctx =
        some ⟨SCMP_ACT_KILL, []⟩ ∧
      (∀ ctx, handed_to_exporter
          (main sample_env (one_file "\n# allowed syscalls\n\n#read") sample_argv) ctx →
        ctx.rules = [] ∧ ctx.def_action = SCMP_ACT_KILL) ∧
      handed_to_exporter (main sample_env (one_file "\n# allowed syscalls\n\n#read") sample_argv)
        ⟨SCMP_ACT_KILL, []⟩ :=
  ⟨(blank_and_comment_lines_add_no_rule sample_env (one_file "\n# allowed syscalls\n\n#read")
      sample_argv "\n# allowed syscalls\n\n#read".toList (by decide) (by decide) (by decide)
      (by decide)).1,
    (blank_and_comment_lines_add_no_rule sample_env (one_file "\n# allowed syscalls\n\n#read")
      sample_argv "\n# allowed syscalls\n\n#read".toList (by decide) (by decide) (by decide)
      (by decide)).2,
    Or.inl (by decide)⟩

theorem line_syscall_some (env : Env) (line : List Char) (n : Int)
    (h : line_syscall env line = some n) :
    ¬ is_skipped line = true ∧ ¬ env.resolve_name (name_of_line line) = __NR_SCMP_ERROR ∧
      env.resolve_name (name_of_line line) = n := by
  unfold line_syscall at h
  by_cases hsk : is_skipped line = true
  · rw [if_pos hsk] at h; cases h
  · rw [if_neg hsk] at h
    by_cases hres : env.resolve_name (name_of_line line) = __NR_SCMP_ERROR
    · rw [if_pos hres] at h; cases h
    · rw [if_neg hres] at h
      exact ⟨hsk, hres, by simpa using h⟩

/-- A line whose rule the filter holds, or will hold when the line is reached,
can be removed without changing the outcome, when the library accepts a rule it
already holds and no read fails. -/
theorem read_loop_erase_held (env : Env) (argv : List String) (hread : env.read_error = none)
    (hdup : ∀ ctx s, allow_rule s ∈ ctx.rules → env.rule_add_rc ctx s = 0)
    (line : List Char) (n : Int) (hls : line_syscall env line = some n)
    (l2 : List (List Char)) :
    ∀ (l1 : List (List Char)) (k k' : Nat) (errno : Int) (ctx : scmp_filter_ctx),
      (allow_rule n ∈ ctx.rules ∨ ∃ l ∈ l1, line_syscall env l = some n) →
      (read_loop env argv (l1 ++ line :: l2) k errno ctx).filter_ctx =
          (read_loop env argv (l1 ++ l2) k' errno ctx).filter_ctx ∧
        (read_loop env argv (l1 ++ line :: l2) k errno ctx).status =
          (read_loop env argv (l1 ++ l2) k' errno ctx).status := by
  have hf := read_fails_none env hread
  obtain ⟨hsk, hres, hn⟩ := line_syscall_some env line n hls
  intro l1
  induction l1 with
  | nil =>
    intro k k' errno ctx h
    have hmem : allow_rule n ∈ ctx.rules := by
      rcases h with h | ⟨l, hl, _⟩
      · exact h
      · cases hl
    have hadd : env.rule_add_rc ctx (env.resolve_name (name_of_line line)) = 0 := by
      rw [hn]; exact hdup ctx n hmem
    rw [List.nil_append, List.nil_append,
      read_loop_add_ok env argv line l2 k errno ctx (hf k) hsk hres hadd, hn,
      rule_added_of_mem ctx n hmem, read_loop_index env argv hread l2 (k + 1) k' errno ctx]
    exact ⟨rfl, rfl⟩
  | cons l l1 ih =>
    intro k k' errno ctx h
    rw [List.cons_append, List.cons_append]
    by_cases hsk1 : is_skipped l = true
    · have hnone : line_syscall env l = none := by simp [line_syscall, hsk1]
      rw [read_loop_skip env argv l _ k errno ctx (hf k) hsk1,
        read_loop_skip env argv l _ k' errno ctx (hf k') hsk1]
      apply ih
      rcases h with h | ⟨x, hx, hxs⟩
      · exact Or.inl h
      · rcases List.mem_cons.1 hx with e | e
        · rw [e, hnone] at hxs; cases hxs
        · exact Or.inr ⟨x, e, hxs⟩
    · by_cases hres1 : env.resolve_name (name_of_line l) = __NR_SCMP_ERROR
      · have hnone : line_syscall env l = none := by simp [line_syscall, hsk1, hres1]
        rw [read_loop_unresolved env argv l _ k errno ctx (hf k) hsk1 hres1,
          read_loop_unresolved env argv l _ k' errno ctx (hf k') hsk1 hres1]
        apply ih
        rcases h with h | ⟨x, hx, hxs⟩
        · exact Or.inl h
        · rcases List.mem_cons.1 hx with e | e
          · rw [e, hnone] at hxs; cases hxs
          · exact Or.inr ⟨x, e, hxs⟩
      · by_cases hadd : env.rule_add_rc ctx (env.resolve_name (name_of_line l)) ≠ 0
        · rw [read_loop_add_fail env argv l _ k errno ctx (hf k) hsk1 hres1 hadd,
            read_loop_add_fail env argv l _ k' errno ctx (hf k') hsk1 hres1 hadd]
          exact ⟨rfl, rfl⟩
        · have hadd0 : env.rule_add_rc ctx (env.resolve_name (name_of_line l)) = 0 := by
            simpa using hadd
          have hsome : line_syscall env l = some (env.resolve_name (name_of_line l)) := by
            simp [line_syscall, hsk1, hres1]
          rw [read_loop_add_ok env argv l _ k errno ctx (hf k) hsk1 hres1 hadd0,
            read_loop_add_ok env argv l _ k' errno ctx (hf k') hsk1 hres1 hadd0]
          apply ih
          rcases h with h | ⟨x, hx, hxs⟩
          · exact Or.inl ((mem_with_rules _ ctx _).2 (Or.inl h))
          · rcases List.mem_cons.1 hx with e | e
            · rw [e, hsome] at hxs
              have e2 : env.resolve_name (name_of_line l) = n := by simpa using hxs
              rw [e2]
              exact Or.inl ((mem_with_rules _ ctx _).2 (Or.inr (List.mem_singleton.2 rfl)))
            · exact Or.inr ⟨x, e, hxs⟩

/-- C3: a syscall whose valid name occurs in the input has exactly one allow
rule in every filter handed to the exporter, however often the name is repeated.
A repeated name is not rejected: for a line whose rule the filter already holds
the loop body calls the resolver and `seccomp_rule_add` and, unless that call
fails, goes on to the next line with the filter as it was; and the run ends
with the same filter and the same exit status as the run on the input without
the repeated line, when the library accepts a rule it already holds and no read
fails. -/
theorem repeated_name_gives_one_rule (env : Env) (fs : String → Option (List Char))
    (argv : List String) (content : List Char)
    (hin : fs (argv.getD 1 "") = some content) :
    (∀ ctx, handed_to_exporter (main env fs argv) ctx →
        ∀ line ∈ split_lines content, ∀ n, n ≠ __NR_SCMP_ERROR →
          line_resolves_to env line n → allow_rule_count ctx n = 1) ∧
      (∀ ctx line n, n ≠ __NR_SCMP_ERROR → line_resolves_to env line n →
        allow_rule n ∈ ctx.rules → env.rule_add_rc ctx n = 0 →
        loop_body env ctx line =
          ([Event.resolve (cstr (strip_newline line)), Event.rule_add SCMP_ACT_ALLOW n 0 0],
            Step.next ctx)) ∧
      (∀ (fs1 : String → Option (List Char)) (i j : Nat) (a b : List Char) (n : Int),
        env.read_error = none →
        (∀ ctx s, allow_rule s ∈ ctx.rules → env.rule_add_rc ctx s = 0) →
        i < j → (split_lines content).get? i = some a → (split_lines content).get? j = some b →
        n ≠ __NR_SCMP_ERROR → line_resolves_to env a n → line_resolves_to env b n →
        fs1 (argv.getD 1 "") = some ((split_lines content).eraseIdx j).flatten →
        (main env fs argv).filter_ctx = (main env fs1 argv).filter_ctx ∧
          (main env fs argv).status = (main env fs1 argv).status) := by
  refine ⟨?_, ?_, ?_⟩
  · intro ctx hexp line hl n hn hres
    have hc := exported_is_complete env fs argv content ctx hin hexp
    subst hc
    exact allow_rule_count_built env _ n ⟨line, hl, (line_syscall_eq_some env line n).2 ⟨hn, hres⟩⟩
  · intro ctx line n hn hres hmem hadd
    obtain ⟨hsk, hne, he⟩ :=
      line_syscall_some env line n ((line_syscall_eq_some env line n).2 ⟨hn, hres⟩)
    rw [loop_body_eq, if_neg hsk, if_neg hne, he, if_neg (not_not.2 hadd), hadd,
      ← name_of_line_eq]
    have := rule_added_of_mem ctx n hmem
    rw [← rule_added_eq] at this
    rw [this]
  · intro fs1 i j a b n hread hdup hij ha hb hn hra hrb hin1
    by_cases hargc : argv.length = 3
    · have hm : ∀ (g : String → Option (List Char)) (c : List Char),
          g (argv.getD 1 "") = some c →
          main env g argv =
            (read_loop env argv (split_lines c) 0 env.errno_entry
              (seccomp_init SCMP_ACT_KILL)).after [Event.fopen (argv.getD 1 "") "r"] := by
        intro g c hg
        unfold main
        rw [if_neg (not_not.2 hargc)]
        simp only [hg]
      rw [List.get?_eq_getElem?] at ha hb
      obtain ⟨hj, hgetb⟩ := List.getElem?_eq_some.1 hb
      have hsplit : split_lines content =
          (split_lines content).take j ++ b :: (split_lines content).drop (j + 1) := by
        conv_lhs =>
          rw [← List.take_append_drop j (split_lines content), List.drop_eq_getElem_cons hj]
        rw [hgetb]
      have hmema : a ∈ (split_lines content).take j := by
        have : ((split_lines content).take j)[i]? = some a := by
          rw [List.getElem?_take_of_lt hij]; exact ha
        exact List.getElem?_mem this
      obtain ⟨h1, h2⟩ := read_loop_erase_held env argv hread hdup b n
        ((line_syscall_eq_some env b n).2 ⟨hn, hrb⟩) ((split_lines content).drop (j + 1))
        ((split_lines content).take j) 0 0 env.errno_entry (seccomp_init SCMP_ACT_KILL)
        (Or.inr ⟨a, hmema, (line_syscall_eq_some env a n).2 ⟨hn, hra⟩⟩)
      rw [← hsplit, ← List.eraseIdx_eq_take_drop_succ] at h1 h2
      rw [hm fs content hin, hm fs1 _ hin1, split_lines_erase]
      exact ⟨h1, h2⟩
    · rw [main_usage env fs argv hargc, main_usage env fs1 argv hargc]
      exact ⟨rfl, rfl⟩

/-- C3, at a concrete input: on `write\nread\nread\n` the filter handed to the
exporter holds one rule for `write` (1) and one for `read` (0); the body of the
loop passes over the second `read` with the filter unchanged; and the run ends
as the run on `write\nread\n` does, with status 0. -/
theorem repeated_name_gives_one_rule_witness :
    handed_to_exporter (main sample_env (one_file "write\nread\nread\n") sample_argv)
        ⟨SCMP_ACT_KILL, [allow_rule 1, allow_rule 0]⟩ ∧
      allow_rule_count ⟨SCMP_ACT_KILL, [allow_rule 1, allow_rule 0]⟩ 0 = 1 ∧
      loop_body sample_env ⟨SCMP_ACT_KILL, [allow_rule 1, allow_rule 0]⟩ "read\n".toList =
        ([Event.resolve (cstr (strip_newline "read\n".toList)),
            Event.rule_add SCMP_ACT_ALLOW 0 0 0],
          Step.next ⟨SCMP_ACT_KILL, [allow_rule 1, allow_rule 0]⟩) ∧
      ((main sample_env (one_file "write\nread\nread\n") sample_argv).filter_ctx =
          (main sample_env (one_file "write\nread\n") sample_argv).filter_ctx ∧
        (main sample_env (one_file "write\nread\nread\n") sample_argv).status =
          (main sample_env (one_file "write\nread\n") sample_argv).status) ∧
      (main sample_env (one_file "write\nread\nread\n") sample_argv).status = EXIT_SUCCESS :=
  have h := repeated_name_gives_one_rule sample_env (one_file "write\nread\nread\n") sample_argv
    "write\nread\nread\n".toList (by decide)
  ⟨Or.inl (by decide),
    h.1 ⟨SCMP_ACT_KILL, [allow_rule 1, allow_rule 0]⟩ (Or.inl (by decide)) "read\n".toList
      (by decide) 0 (by decide) (by decide),
    h.2.1 ⟨SCMP_ACT_KILL, [allow_rule 1, allow_rule 0]⟩ "read\n".toList 0 (by decide) (by decide)
      (by decide) rfl,
    h.2.2 (one_file "write\nread\n") 1 2 "read\n".toList "read\n".toList 0 rfl (fun _ _ _ => rfl)
      (by decide) (by decide) (by decide) (by decide) (by decide) (by decide) (by decide),
    by decide⟩

/-- Skip and warn: let line `N` of the input be a name the resolver does not
know, and let no read fail.  Then the run ends with the same filter and the same
exit status as the run on the input with line `N` removed, so the line adds no
rule, stops no other line from being processed and does not change the status;
and unless a rule-add call fails, the run writes the diagnostic naming the
entry. -/
theorem unresolved_line_leaves_run_unchanged (env : Env)
    (fs fs1 : String → Option (List Char)) (argv : List String) (content : List Char)
    (N : Nat) (line : List Char)
    (hargc : argv.length = 3)
    (hin : fs (argv.getD 1 "") = some content)
    (hline : (split_lines content).get? N = some line)
    (hin1 : fs1 (argv.getD 1 "") = some ((split_lines content).eraseIdx N).flatten)
    (hnc : line.head? ≠ some HASH)
    (hunres : seccomp_syscall_resolve_name_arch env (strip_newline line) = __NR_SCMP_ERROR)
    (hread : env.read_error = none) :
    (main env fs argv).filter_ctx = (main env fs1 argv).filter_ctx ∧
      (main env fs argv).status = (main env fs1 argv).status ∧
      ((∀ a s n rc, Event.rule_add a s n rc ∈ (main env fs argv).trace → rc = 0) →
        Event.fprintf_stderr (msg_unresolved (cstr (strip_newline line))) ∈
          (main env fs argv).trace) := by
  have hm : ∀ (g : String → Option (List Char)) (c : List Char), g (argv.getD 1 "") = some c →
      main env g argv =
        (read_loop env argv (split_lines c) 0 env.errno_entry
          (seccomp_init SCMP_ACT_KILL)).after [Event.fopen (argv.getD 1 "") "r"] := by
    intro g c hg
    unfold main
    rw [if_neg (not_not.2 hargc)]
    simp only [hg]
  have hN : N < (split_lines content).length := by
    rw [List.get?_eq_getElem?] at hline
    exact (List.getElem?_eq_some.1 hline).1
  have hget : (split_lines content)[N] = line := by
    rw [List.get?_eq_getElem?] at hline
    exact (List.getElem?_eq_some.1 hline).2
  have hsplit : split_lines content =
      (split_lines content).take N ++ line :: (split_lines content).drop (N + 1) := by
    conv_lhs => rw [← List.take_append_drop N (split_lines content), List.drop_eq_getElem_cons hN]
    rw [hget]
  have hne : line ≠ [] := by
    apply split_lines_ne_nil content
    rw [← hget]
    exact List.getElem_mem _
  have hsk : ¬ is_skipped line = true := by
    intro h
    rcases (is_skipped_iff line).1 h with h | h
    · exact hne h
    · exact hnc h
  have hres : env.resolve_name (name_of_line line) = __NR_SCMP_ERROR := by
    rw [name_of_line_eq]; exact hunres
  obtain ⟨h1, h2, h3⟩ := read_loop_erase env argv hread line hsk hres
    ((split_lines content).drop (N + 1)) ((split_lines content).take N) 0 0 env.errno_entry
    (seccomp_init SCMP_ACT_KILL)
  rw [← hsplit] at h1 h2 h3
  rw [← List.eraseIdx_eq_take_drop_succ] at h1 h2
  rw [hm fs content hin, hm fs1 _ hin1, split_lines_erase, ← name_of_line_eq]
  refine ⟨h1, h2, fun hall => ?_⟩
  have := h3 (fun a s n rc hmem => hall a s n rc (List.mem_append_right _ hmem))
  exact List.mem_append_right _ this

/-- C4, as the code runs: on `read\nbogus_syscall_xyz\nwrite\n`, in an
environment where no library call fails but `errno` is 22 when the read loop is
entered, the run reports the unknown name and adds the two valid rules, and
then takes the end of the file for a read failure: it exits with `EXIT_FAILURE`
and exports nothing.  With `errno` clear the same input gives status 0. -/
theorem unresolved_name_run_fails_on_stale_errno :
    (stale_errno_env.read_error = none ∧ (∀ ctx s, stale_errno_env.rule_add_rc ctx s = 0) ∧
        stale_errno_env.fclose_txt_rc = 0 ∧ (∀ path, stale_errno_env.fopen_w_ok path = true) ∧
        (∀ ctx, stale_errno_env.export_pfc_rc ctx = 0) ∧
        (∀ ctx, stale_errno_env.export_bpf_rc ctx = 0) ∧ stale_errno_env.fclose_bpf_rc = 0) ∧
      (main stale_errno_env (one_file "read\nbogus_syscall_xyz\nwrite\n") sample_argv).status =
        EXIT_FAILURE ∧
      (main stale_errno_env (one_file "read\nbogus_syscall_xyz\nwrite\n") sample_argv).trace =
        [Event.fopen "policy.txt" "r", Event.resolve "read".toList,
          Event.rule_add SCMP_ACT_ALLOW 0 0 0, Event.resolve "bogus_syscall_xyz".toList,
          Event.fprintf_stderr
            "Could not resolve syscall 'bogus_syscall_xyz'; skipping\n".toList,
          Event.resolve "write".toList, Event.rule_add SCMP_ACT_ALLOW 1 0 0,
          Event.perror "Failed to read line from input file"] ∧
      (main stale_errno_env (one_file "read\nwrite\n") sample_argv).status = EXIT_FAILURE ∧
      (main sample_env (one_file "read\nbogus_syscall_xyz\nwrite\n") sample_argv).status =
        EXIT_SUCCESS :=
  ⟨⟨rfl, fun _ _ => rfl, rfl, fun _ => rfl, fun _ => rfl, fun _ => rfl, rfl⟩,
    by decide, by decide, by decide, by decide⟩

/-- C5, as the code runs: a blank line is delivered as a lone newline, which
is neither of length zero nor a comment, so the loop body calls the resolver
with the empty name; in the sample environment the file `\n` makes the run
report `''` as unresolved. -/
theorem blank_line_reaches_the_resolver (env : Env) (ctx : scmp_filter_ctx) :
    split_lines "\n".toList = [[NL]] ∧
      (loop_body env ctx [NL]).1.head? = some (Event.resolve []) ∧
      Event.resolve [] ∈ (main sample_env (one_file "\n") sample_argv).trace ∧
      Event.fprintf_stderr "Could not resolve syscall ''; skipping\n".toList ∈
        (main sample_env (one_file "\n") sample_argv).trace := by
  refine ⟨by decide, ?_, by decide, by decide⟩
  have hn : name_of_line [NL] = [] := by decide
  have hsk : ¬ is_skipped [NL] = true := by decide
  rw [loop_body_eq, if_neg hsk, hn]
  split_ifs <;> rfl

/-- C6, as it fails: for the line `read`, NUL, `junk`, newline the resolver is
called with `read`, which is not the line minus its newline; the line is
resolved as `read` and adds the rule for syscall 0. -/
theorem name_is_cut_at_first_nul :
    (loop_body sample_env (seccomp_init SCMP_ACT_KILL) "read\x00junk\n".toList).1.filter
        Event.is_resolve = [Event.resolve "read".toList] ∧
      strip_newline "read\x00junk\n".toList = "read\x00junk".toList ∧
      "read".toList ≠ strip_newline "read\x00junk\n".toList ∧
      (main sample_env (one_file "read\x00junk\n") sample_argv).filter_ctx =
        some ⟨SCMP_ACT_KILL, [allow_rule 0]⟩ :=
  ⟨by decide, by decide, by decide, by decide⟩

/-- C6, amended: for a line that is neither of length zero nor a comment the
loop body calls the resolver once, with the C string of the line buffer, which
is the line minus one trailing newline cut at its first NUL; for a line without
NUL it is the line minus one trailing newline (the line itself when it does not
end in a newline), with no other character removed or changed. -/
theorem resolver_gets_line_minus_newline (env : Env) (ctx : scmp_filter_ctx)
    (line : List Char) (hne : line ≠ []) (hnc : line.head? ≠ some HASH) :
    (loop_body env ctx line).1.filter Event.is_resolve =
        [Event.resolve (cstr (strip_newline line))] ∧
      (NUL ∉ line → cstr (strip_newline line) = strip_newline line) := by
  have hsk : ¬ is_skipped line = true := by
    intro h
    rcases (is_skipped_iff line).1 h with h | h
    · exact hne h
    · exact hnc h
  constructor
  · rw [loop_body_eq, if_neg hsk, ← name_of_line_eq]
    split_ifs <;> simp [Event.is_resolve]
  · intro hnul
    apply cstr_of_no_nul
    unfold strip_newline
    split_ifs
    · exact fun h => hnul (List.mem_of_mem_dropLast h)
    · exact hnul

/-- C6, amended, at concrete lines: spaces, a carriage return and upper case
reach the resolver as they are, and a last line without newline is passed
whole. -/
theorem resolver_gets_line_minus_newline_witness :
    ((loop_body sample_env (seccomp_init SCMP_ACT_KILL) " Read \r\n".toList).1.filter
        Event.is_resolve = [Event.resolve (cstr (strip_newline " Read \r\n".toList))] ∧
      (NUL ∉ " Read \r\n".toList →
        cstr (strip_newline " Read \r\n".toList) = strip_newline " Read \r\n".toList)) ∧
      strip_newline " Read \r\n".toList = " Read \r".toList ∧
      ((loop_body sample_env (seccomp_init SCMP_ACT_KILL) "write".toList).1.filter
        Event.is_resolve = [Event.resolve (cstr (strip_newline "write".toList))] ∧
      (NUL ∉ "write".toList →
        cstr (strip_newline "write".toList) = strip_newline "write".toList)) ∧
      strip_newline "write".toList = "write".toList :=
  ⟨resolver_gets_line_minus_newline sample_env (seccomp_init SCMP_ACT_KILL) " Read \r\n".toList
      (by decide) (by decide),
    by decide,
    resolver_gets_line_minus_newline sample_env (seccomp_init SCMP_ACT_KILL) "write".toList
      (by decide) (by decide),
    by decide⟩

/-- C7: if a `seccomp_rule_add` call of the run returns a value other than 0,
the run exits with `EXIT_FAILURE`, has written the diagnostic about the rule,
and has made no export and opened no file for writing. -/
theorem failed_rule_add_ends_run_before_export (env : Env) (fs : String → Option (List Char))
    (argv : List String) (a : scmp_action) (s : Int) (n : Nat) (rc : Int)
    (hmem : Event.rule_add a s n rc ∈ (main env fs argv).trace) (hrc : rc ≠ 0) :
    (main env fs argv).status = EXIT_FAILURE ∧ (main env fs argv).status ≠ 0 ∧
      (∃ name, Event.fprintf_stderr (msg_add_error name) ∈ (main env fs argv).trace) ∧
      ∀ ev ∈ (main env fs argv).trace,
        Event.is_export ev = false ∧ Event.opens_for_writing ev = false := by
  have hq0 : ¬ (Event.loop_quiet (Event.rule_add a s n rc) = true) := by
    simpa [Event.loop_quiet] using hrc
  by_cases hargc : argv.length = 3
  · cases hin : fs (argv.getD 1 "") with
    | none =>
      rw [main_no_input env fs argv hargc hin] at hmem
      simp at hmem
    | some content =>
      rcases main_cases env fs argv content hargc hin with ⟨evs, hq, he⟩ |
          ⟨evs, done, hq, _, _, he⟩ | ⟨evs, done, name, s1, rc1, hq, _, _, _, he⟩
      · rw [he] at hmem
        simp only [Run.after, List.cons_append, List.mem_cons, List.mem_append] at hmem
        rcases hmem with h | h | h
        · cases h
        · exact absurd (hq _ h) hq0
        · rcases mem_after_loop env argv _ _ h with h | h | h | h | h | h | ⟨m, h⟩ <;> cases h
      · rw [he] at hmem
        simp only [List.cons_append, List.mem_cons, List.mem_append, List.mem_singleton,
          List.not_mem_nil, or_false] at hmem
        rcases hmem with h | h | h
        · cases h
        · exact absurd (hq _ h) hq0
        · cases h
      · rw [he]
        refine ⟨rfl, exit_failure_ne_zero, ⟨name, by simp⟩, ?_⟩
        intro ev hev
        simp only [List.cons_append, List.mem_cons, List.mem_append, List.mem_singleton,
          List.not_mem_nil, or_false] at hev
        rcases hev with h | h | h | h | h
        · subst h; exact ⟨rfl, fopen_r_not_for_writing _⟩
        · exact ⟨(quiet_not_export ev (hq ev h)).1, (quiet_not_export ev (hq ev h)).2.2⟩
        · subst h; exact ⟨rfl, rfl⟩
        · subst h; exact ⟨rfl, rfl⟩
        · subst h; exact ⟨rfl, rfl⟩
  · rw [main_usage env fs argv hargc] at hmem
    simp at hmem

/-- C7, at a concrete run: when adding the rule for `write` fails with -12, the
run on `read\nwrite\nclose\n` exits with `EXIT_FAILURE` after the diagnostic,
without export and without opening the output file. -/
theorem failed_rule_add_ends_run_before_export_witness :
    Event.rule_add SCMP_ACT_ALLOW 1 0 (-12) ∈
        (main failing_add_env (one_file "read\nwrite\nclose\n") sample_argv).trace ∧
      ((main failing_add_env (one_file "read\nwrite\nclose\n") sample_argv).status = EXIT_FAILURE ∧
        (main failing_add_env (one_file "read\nwrite\nclose\n") sample_argv).status ≠ 0 ∧
        (∃ name, Event.fprintf_stderr (msg_add_error name) ∈
          (main failing_add_env (one_file "read\nwrite\nclose\n") sample_argv).trace) ∧
        ∀ ev ∈ (main failing_add_env (one_file "read\nwrite\nclose\n") sample_argv).trace,
          Event.is_export ev = false ∧ Event.opens_for_writing ev = false) :=
  ⟨by decide,
    failed_rule_add_ends_run_before_export failing_add_env (one_file "read\nwrite\nclose\n")
      sample_argv SCMP_ACT_ALLOW 1 0 (-12) (by decide) (by decide)⟩

/-- C8, as the code runs: with `errno` left at 22 by an earlier call and no read
failing, the end of the file `read\n` (and of the empty file) is reported as a
read failure: the run exits with `EXIT_FAILURE` after
`perror("Failed to read line from input file")` and exports nothing.  The same
path is taken when a read does fail. -/
theorem stale_errno_turns_end_of_file_into_read_failure :
    stale_errno_env.read_error = none ∧
      (main stale_errno_env (one_file "read\n") sample_argv).status = EXIT_FAILURE ∧
      (main stale_errno_env (one_file "read\n") sample_argv).trace =
        [Event.fopen "policy.txt" "r", Event.resolve "read".toList,
          Event.rule_add SCMP_ACT_ALLOW 0 0 0,
          Event.perror "Failed to read line from input file"] ∧
      (main stale_errno_env (one_file "") sample_argv).status = EXIT_FAILURE ∧
      (main stale_errno_env (one_file "") sample_argv).trace =
        [Event.fopen "policy.txt" "r", Event.perror "Failed to read line from input file"] ∧
      (main sample_env (one_file "read\n") sample_argv).status = EXIT_SUCCESS ∧
      (main read_error_env (one_file "read\nwrite\n") sample_argv).trace =
        [Event.fopen "policy.txt" "r", Event.resolve "read".toList,
          Event.rule_add SCMP_ACT_ALLOW 0 0 0,
          Event.perror "Failed to read line from input file"] :=
  ⟨rfl, by decide, by decide, by decide, by decide, by decide, by decide⟩

/-- C9: when the input file cannot be opened, the run consists of the failed
`fopen` for reading and `perror("Failed to open input file")`, and exits with
`EXIT_FAILURE`; no file is opened for writing and nothing is exported. -/
theorem unopenable_input_leaves_output_untouched (env : Env)
    (fs : String → Option (List Char)) (argv : List String)
    (hargc : argv.length = 3) (hin : fs (argv.getD 1 "") = none) :
    (main env fs argv).status = EXIT_FAILURE ∧ (main env fs argv).status ≠ 0 ∧
      (main env fs argv).trace =
        [Event.fopen (argv.getD 1 "") "r", Event.perror "Failed to open input file"] ∧
      ∀ ev ∈ (main env fs argv).trace,
        Event.opens_for_writing ev = false ∧ Event.is_export ev = false := by
  rw [main_no_input env fs argv hargc hin]
  refine ⟨rfl, exit_failure_ne_zero, rfl, ?_⟩
  intro ev hev
  simp only [List.mem_cons, List.mem_singleton, List.not_mem_nil, or_false] at hev
  rcases hev with h | h <;> subst h
  · exact ⟨fopen_r_not_for_writing _, rfl⟩
  · exact ⟨rfl, rfl⟩

/-- C9, at a concrete run: the input path `missing.txt` names no file. -/
theorem unopenable_input_leaves_output_untouched_witness :
    (main sample_env (one_file "read\n") ["compile-bpf", "missing.txt", "out.bpf"]).status =
        EXIT_FAILURE ∧
      (main sample_env (one_file "read\n") ["compile-bpf", "missing.txt", "out.bpf"]).status ≠ 0 ∧
      (main sample_env (one_file "read\n") ["compile-bpf", "missing.txt", "out.bpf"]).trace =
        [Event.fopen "missing.txt" "r", Event.perror "Failed to open input file"] ∧
      ∀ ev ∈ (main sample_env (one_file "read\n") ["compile-bpf", "missing.txt", "out.bpf"]).trace,
        Event.opens_for_writing ev = false ∧ Event.is_export ev = false :=
  unopenable_input_leaves_output_untouched sample_env (one_file "read\n")
    ["compile-bpf", "missing.txt", "out.bpf"] (by decide) (by decide)

/-- C10: when the number of arguments after the program name is not two, the
run consists of the usage message on the diagnostic stream and exits with
`EXIT_FAILURE`; no file is opened. -/
theorem wrong_argument_count_is_usage_error (env : Env) (fs : String → Option (List Char))
    (argv : List String) (hargc : argv.length ≠ 3) :
    (main env fs argv).trace = [Event.fprintf_stderr (msg_usage (argv.getD 0 ""))] ∧
      (main env fs argv).status = EXIT_FAILURE ∧ (main env fs argv).status ≠ 0 ∧
      ∀ ev ∈ (main env fs argv).trace, Event.is_fopen ev = false := by
  rw [main_usage env fs argv hargc]
  refine ⟨rfl, rfl, exit_failure_ne_zero, ?_⟩
  intro ev hev
  simp only [List.mem_singleton] at hev
  subst hev
  rfl

/-- C10, at concrete command lines with no, one and three arguments after the
program name. -/
theorem wrong_argument_count_is_usage_error_witness :
    ((main sample_env (one_file "read\n") ["compile-bpf"]).trace =
        [Event.fprintf_stderr "Usage: compile-bpf input-file.txt output-file.bpf\n".toList] ∧
      (main sample_env (one_file "read\n") ["compile-bpf"]).status = EXIT_FAILURE) ∧
      (main sample_env (one_file "read\n") ["compile-bpf", "policy.txt"]).status = EXIT_FAILURE ∧
      (∀ ev ∈ (main sample_env (one_file "read\n")
          ["compile-bpf", "policy.txt", "out.bpf", "extra"]).trace, Event.is_fopen ev = false) :=
  ⟨⟨(wrong_argument_count_is_usage_error sample_env (one_file "read\n") ["compile-bpf"]
        (by decide)).1,
      (wrong_argument_count_is_usage_error sample_env (one_file "read\n") ["compile-bpf"]
        (by decide)).2.1⟩,
    (wrong_argument_count_is_usage_error sample_env (one_file "read\n")
      ["compile-bpf", "policy.txt"] (by decide)).2.1,
    (wrong_argument_count_is_usage_error sample_env (one_file "read\n")
      ["compile-bpf", "policy.txt", "out.bpf", "extra"] (by decide)).2.2.2⟩

end CompileBpf
